import Mathlib

/-!
Verification development for the meme-photo browser extension's upload
orchestration core.  The TypeScript sources are shallowly embedded as pure
Lean functions:

* `chrome.storage` objects become insertion-ordered association lists
  (`List (String × _)`), mirroring JavaScript object key order;
* `Date.now()` / `crypto.randomUUID()` become explicit `now` / `freshId`
  parameters;
* network responses become explicit oracle parameters;
* JavaScript exceptions become `Option` / `Except` results;
* `Uint8Array` buffers become `List Nat` with every element `< 256`
  (guaranteed by `Uint8Array` itself), and out-of-bounds reads, which yield
  `undefined` in JavaScript and coerce to `0` under bitwise operators,
  become `List.getD _ _ 0`.
-/

namespace MemePhoto

/-! ### Small string helpers (ASCII-only models of JS string operations) -/

/-- ASCII lower-casing of a character, the fragment of JS `toLowerCase`
relevant to hostnames and filename extensions. -/
def lowerChar (c : Char) : Char :=
  if 'A' ≤ c ∧ c ≤ 'Z' then Char.ofNat (c.toNat + 32) else c

/-- ASCII lower-casing of a string. -/
def asciiLower (s : String) : String := String.mk (s.data.map lowerChar)

/-- Model of JS `String.prototype.startsWith`. -/
def strStartsWith (s pre : String) : Bool := pre.data.isPrefixOf s.data

/-- Model of JS `String.prototype.endsWith`. -/
def strEndsWith (s suf : String) : Bool := suf.data.isSuffixOf s.data

/-- Model of JS `String.prototype.includes(c)` for a single character. -/
def strContainsChar (s : String) (c : Char) : Bool := s.data.contains c

/-- Split a character list at every occurrence of `sep`, JS `split` style:
`splitChars ':' "a:b"` gives `["a", "b"]`, and separators at the ends
produce empty groups. -/
def splitChars (sep : Char) : List Char → List (List Char)
  | [] => [[]]
  | c :: rest =>
    if c = sep then [] :: splitChars sep rest
    else
      match splitChars sep rest with
      | [] => [[c]]
      | g :: gs => (c :: g) :: gs

/-- Model of JS `String.prototype.split` with a one-character separator. -/
def strSplit (sep : Char) (s : String) : List String :=
  (splitChars sep s.data).map String.mk

/-- Decimal digit test, the `\d` character class of the source's regexes. -/
def isDigitChar (c : Char) : Bool := '0' ≤ c ∧ c ≤ '9'

/-- Value of a decimal digit character. -/
def digitVal (c : Char) : Nat := c.toNat - 48

/-- Parse a non-empty all-digit character list as a decimal number,
the JS `Number(...)` coercion on a string matched by `\d{1,3}`. -/
def parseNat (cs : List Char) : Option Nat :=
  if cs ≠ [] ∧ cs.all isDigitChar then
    some (cs.foldl (fun acc c => acc * 10 + digitVal c) 0)
  else none

/-! ### History Ledger (`src/src/utils/uploadHistory.ts`) -/

/-- Persistent upload record (`UploadRecord` in `src/src/types/storage.ts`;
the optional `albumId` is omitted because no claim mentions it). -/
structure UploadRecord where
  id : String
  timestamp : Nat
  filename : String
  mediaItemId : String
  productUrl : String
deriving DecidableEq

/-- `MAX_RECORDS` in `uploadHistory.ts`. -/
def MAX_RECORDS : Nat := 50

/-- `addUploadRecord` in `uploadHistory.ts`: build the new record from the
fresh UUID (`crypto.randomUUID()`, here `freshId`) and the current timestamp
(`Date.now()`, here `now`), prepend it to the stored history and truncate
with `.slice(0, MAX_RECORDS)`. -/
def addUploadRecord (freshId : String) (now : Nat)
    (filename mediaItemId productUrl : String)
    (uploadHistory : List UploadRecord) : List UploadRecord :=
  ({ id := freshId, timestamp := now, filename := filename,
     mediaItemId := mediaItemId, productUrl := productUrl } :: uploadHistory).take MAX_RECORDS

/-- Input data of one append: fresh id, timestamp, filename, media item id,
product URL. -/
abbrev RecordInput := String × Nat × String × String × String

/-- The record an append input produces. -/
def toRecord (r : RecordInput) : UploadRecord :=
  { id := r.1, timestamp := r.2.1, filename := r.2.2.1,
    mediaItemId := r.2.2.2.1, productUrl := r.2.2.2.2 }

/-- Run a sequence of `addUploadRecord` calls in submission order. -/
def addRecords (inputs : List RecordInput) (uploadHistory : List UploadRecord) :
    List UploadRecord :=
  inputs.foldl
    (fun h r => addUploadRecord r.1 r.2.1 r.2.2.1 r.2.2.2.1 r.2.2.2.2 h) uploadHistory

/-! ### Thumbnail cache (`src/src/utils/thumbnailCache.ts`) -/

/-- `ThumbnailCacheEntry` in `src/src/types/storage.ts`; `lastAccessedAt`
is optional there. -/
structure ThumbnailCacheEntry where
  base64DataUrl : String
  cachedAt : Nat
  lastAccessedAt : Option Nat
deriving DecidableEq

/-- The `thumbnailCache` storage object: an insertion-ordered key-value map,
as JS objects enumerate their string keys in insertion order. -/
abbrev ThumbnailCache := List (String × ThumbnailCacheEntry)

/-- `MAX_CACHE_SIZE` in `thumbnailCache.ts`. -/
def MAX_CACHE_SIZE : Nat := 100

/-- `CACHE_EXPIRY_MS` in `thumbnailCache.ts`: 7 days. -/
def CACHE_EXPIRY_MS : Nat := 7 * 24 * 60 * 60 * 1000

/-- JS object property read `cache[key]`. -/
def objGet (cache : ThumbnailCache) (key : String) : Option ThumbnailCacheEntry :=
  (cache.find? (fun p => p.1 = key)).map (·.2)

/-- JS `delete cache[key]`. -/
def objDelete (cache : ThumbnailCache) (key : String) : ThumbnailCache :=
  cache.filter (fun p => p.1 ≠ key)

/-- JS `cache[key] = value`: updates in place when the key exists, otherwise
appends (JS keeps a rewritten property at its original insertion position). -/
def objSet (cache : ThumbnailCache) (key : String) (v : ThumbnailCacheEntry) :
    ThumbnailCache :=
  if cache.any (fun p => p.1 = key) then
    cache.map (fun p => if p.1 = key then (key, v) else p)
  else cache ++ [(key, v)]

/-- Result of a cache read: the value returned and the storage state after
the call, plus whether the function issued a `chrome.storage.local.set`. -/
structure GetResult where
  value : Option String
  newCache : ThumbnailCache
  wrote : Bool
deriving DecidableEq

/-- `getCachedThumbnail` (`thumbnailCache.ts` lines 8–33): a truthy entry
whose age exceeds the TTL is deleted and reported as a miss; a live hit
updates `lastAccessedAt` to `Date.now()` and persists the cache. -/
def getCachedThumbnail (now : Nat) (cache : ThumbnailCache) (mediaItemId : String) :
    GetResult :=
  match objGet cache mediaItemId with
  | some entry =>
    if entry.base64DataUrl ≠ "" then
      if now - entry.cachedAt > CACHE_EXPIRY_MS then
        { value := none, newCache := objDelete cache mediaItemId, wrote := true }
      else
        { value := some entry.base64DataUrl,
          newCache := objSet cache mediaItemId { entry with lastAccessedAt := some now },
          wrote := true }
    else { value := none, newCache := cache, wrote := false }
  | none => { value := none, newCache := cache, wrote := false }

/-- LRU rank used by the eviction sort: `lastAccessedAt ?? cachedAt`. -/
def lruKey (e : ThumbnailCacheEntry) : Nat := e.lastAccessedAt.getD e.cachedAt

/-- `Math.max(1, Math.floor(MAX_CACHE_SIZE * 0.1))` = 10. -/
def evictCount : Nat := max 1 (MAX_CACHE_SIZE / 10)

/-- The expiry purge loop at the top of `cacheThumbnail`
(`thumbnailCache.ts` lines 43–49): delete every entry whose age exceeds
the TTL. -/
def purgeExpired (now : Nat) (cache : ThumbnailCache) : ThumbnailCache :=
  cache.filter (fun p => ¬ (now - p.2.cachedAt > CACHE_EXPIRY_MS))

/-- The eviction sort (`thumbnailCache.ts` lines 53–57): a stable sort of
the entry list by LRU rank ascending (JS `Array.prototype.sort` is stable,
so ties keep insertion order). -/
def lruSort (cache : ThumbnailCache) : ThumbnailCache :=
  cache.mergeSort (fun a b => lruKey a.2 ≤ lruKey b.2)

/-- The keys scheduled for eviction: the first `evictCount` of the sorted
copy (`entriesToRemove`). -/
def evictKeys (cache : ThumbnailCache) : List String :=
  ((lruSort cache).take evictCount).map Prod.fst

/-- The capacity check and deletion loop (`thumbnailCache.ts` lines
51–65). -/
def evictIfFull (cache : ThumbnailCache) : ThumbnailCache :=
  if MAX_CACHE_SIZE ≤ cache.length then
    cache.filter (fun p => ¬ (evictKeys cache).contains p.1)
  else cache

/-- `cacheThumbnail` (`thumbnailCache.ts` lines 35–79): purge expired
entries, then, at or above capacity, evict the `evictCount` entries with
the oldest LRU rank, then insert/overwrite the new entry with `Date.now()`
as both timestamps. -/
def cacheThumbnail (now : Nat) (cache : ThumbnailCache)
    (mediaItemId base64DataUrl : String) : ThumbnailCache :=
  objSet (evictIfFull (purgeExpired now cache)) mediaItemId
    { base64DataUrl := base64DataUrl, cachedAt := now, lastAccessedAt := some now }

/-- Storage failure oracle: whether the `chrome.storage.local` read/write
calls issued by a cache function throw. -/
structure StorageEnv where
  readFails : Bool
  writeFails : Bool
deriving DecidableEq

/-- `getCachedThumbnail` including its `try`/`catch`: a throwing read, or a
throwing write on the hit/expiry paths, is caught and reported as a miss
with the durable state unchanged. -/
def getCachedThumbnailSafe (env : StorageEnv) (now : Nat) (cache : ThumbnailCache)
    (mediaItemId : String) : GetResult :=
  if env.readFails then { value := none, newCache := cache, wrote := false }
  else
    let r := getCachedThumbnail now cache mediaItemId
    if env.writeFails ∧ r.wrote then { value := none, newCache := cache, wrote := false }
    else r

/-- `cacheThumbnail` including its `try`/`catch` (`thumbnailCache.ts` lines
35–79): every storage error is caught and logged, the function always
returns normally; on failure the durable state is unchanged. -/
def cacheThumbnailSafe (env : StorageEnv) (now : Nat) (cache : ThumbnailCache)
    (mediaItemId base64DataUrl : String) : ThumbnailCache :=
  if env.readFails ∨ env.writeFails then cache
  else cacheThumbnail now cache mediaItemId base64DataUrl

/-- `getThumbnailDataUrl` (`thumbnailCache.ts` lines 153–170): return the
cached value on a hit; otherwise fetch (`fetchResult` is the outcome of
`fetchThumbnailFromApi`, `none` meaning it failed), and on success cache the
fetched data URL before returning it. -/
def getThumbnailDataUrl (env : StorageEnv) (now : Nat) (cache : ThumbnailCache)
    (mediaItemId : String) (fetchResult : Option String) :
    Option String × ThumbnailCache :=
  let g := getCachedThumbnailSafe env now cache mediaItemId
  match g.value with
  | some cached => (some cached, g.newCache)
  | none =>
    match fetchResult with
    | none => (none, g.newCache)
    | some dataUrl =>
      (some dataUrl, cacheThumbnailSafe env now g.newCache mediaItemId dataUrl)

/-! ### User-profile cache (`src/src/utils/userProfile.ts`) -/

/-- `UserProfile` in `src/src/types/storage.ts`. -/
structure UserProfile where
  name : String
  photoUrl : String
  lastUpdated : Nat
deriving DecidableEq

/-- `CACHE_EXPIRY_MS` in `userProfile.ts`: 1 day. -/
def PROFILE_CACHE_EXPIRY_MS : Nat := 24 * 60 * 60 * 1000

/-- `getCachedProfile` (`userProfile.ts` lines 80–99) with the stored slot
passed explicitly: returns the cached profile unless absent or older than
the TTL.  The function reads `chrome.storage.local` and never writes it, so
the state component of the result is the unchanged input slot. -/
def getCachedProfileSt (now : Nat) (stored : Option UserProfile) :
    Option UserProfile × Option UserProfile :=
  match stored with
  | none => (none, stored)
  | some cached =>
    if now - cached.lastUpdated > PROFILE_CACHE_EXPIRY_MS then (none, stored)
    else (some cached, stored)

/-! ### Download validation (`src/src/background/index.ts` lines 648–822) -/

/-- Dotted-quad parse, the `^(\d{1,3})\.(\d{1,3})\.(\d{1,3})\.(\d{1,3})$`
regex match of `isInternalIP` followed by `Number` on each captured group. -/
def parseIPv4 (hostname : String) : Option (Nat × Nat × Nat × Nat) :=
  match (splitChars '.' hostname.data).map parseNat3 with
  | [some a, some b, some c, some d] => some (a, b, c, d)
  | _ => none
where
  /-- One octet group: between 1 and 3 decimal digits. -/
  parseNat3 (cs : List Char) : Option Nat :=
    if cs.length ≤ 3 then parseNat cs else none

/-- The IPv4 range checks of `isInternalIP` (`background/index.ts` lines
659–699), applied to the four octets captured by the regex. -/
def ipv4InternalRange (a b c d : Nat) : Bool :=
  -- octets out of 0..255 mean the string was not a valid IP
  if a > 255 ∨ b > 255 ∨ c > 255 ∨ d > 255 then false
  else if a = 127 then true                    -- loopback 127.0.0.0/8
  else if a = 10 then true                     -- private 10.0.0.0/8
  else if a = 172 ∧ 16 ≤ b ∧ b ≤ 31 then true  -- private 172.16.0.0/12
  else if a = 192 ∧ b = 168 then true          -- private 192.168.0.0/16
  else if a = 169 ∧ b = 254 then true          -- link-local 169.254.0.0/16
  else if a = 100 ∧ 64 ≤ b ∧ b ≤ 127 then true -- carrier-NAT 100.64.0.0/10
  else false

/-- The IPv6 textual checks of `isInternalIP` (`background/index.ts` lines
702–726), applied to the lower-cased hostname. -/
def ipv6Internal (v6 : String) : Bool :=
  if v6 = "::1" ∨ v6 = "0:0:0:0:0:0:0:1" then true           -- IPv6 loopback
  else if strStartsWith v6 "fe80:" ∨ strStartsWith v6 "fe80::" then true
  else if strContainsChar v6 ':' ∧ (strStartsWith v6 "fc" ∨ strStartsWith v6 "fd")
    then true                                                -- fc00::/7 ULA
  else false

/-- `isInternalIP` (`background/index.ts` lines 648–727): the `localhost`
string check, then the dotted-quad regex path, then the IPv6 checks. -/
def isInternalIP (hostname : String) : Bool :=
  -- hostname.toLowerCase() === 'localhost'
  if asciiLower hostname = "localhost" then true
  else
    match parseIPv4 hostname with
    | some (a, b, c, d) => ipv4InternalRange a b c d
    | none => ipv6Internal (asciiLower hostname)

/-- The relevant fields of a parsed WHATWG `URL`; `new URL(imageUrl)` is a
platform API, so the embedding takes its output as the input. -/
structure UrlParts where
  protocol : String
  hostname : String
  pathname : String
deriving DecidableEq

/-- The relevant observables of a `fetch` response and its blob. -/
structure FetchResponse where
  status : Nat
  statusText : String
  blobSize : Nat
  blobType : String
deriving DecidableEq

/-- `response.ok`: HTTP status in the range 200–299. -/
def respOk (r : FetchResponse) : Bool := 200 ≤ r.status ∧ r.status < 300

/-- `MAX_FILE_SIZE` in `downloadImage`: the 200MB hard ceiling. -/
def MAX_FILE_SIZE : Nat := 200 * 1024 * 1024

/-- `validTypes` in `downloadImage`. -/
def validTypes : List String :=
  ["image/jpeg", "image/png", "image/gif", "image/bmp", "image/tiff",
   "image/webp", "image/heic", "image/avif", "image/x-icon"]

/-- Extensions accepted by `extractFilename`'s case-insensitive regex
`\.(jpg|jpeg|png|gif|bmp|tiff|webp|heic|avif|ico)$`. -/
def imageExtensions : List String :=
  ["jpg", "jpeg", "png", "gif", "bmp", "tiff", "webp", "heic", "avif", "ico"]

/-- The regex test of `extractFilename`. -/
def hasImageExtension (filename : String) : Bool :=
  imageExtensions.any (fun ext => strEndsWith (asciiLower filename) ("." ++ ext))

/-- `extractFilename` (`background/index.ts` lines 824–842): last `/`-split
component of the pathname, accepted only when non-empty with a recognized
image extension. -/
def extractFilename (u : UrlParts) : Option String :=
  let parts := strSplit '/' u.pathname
  let filename := parts.getLastD ""
  if filename ≠ "" ∧ hasImageExtension filename then some filename else none

/-- `generateFilename` (`background/index.ts` lines 844–860). -/
def generateFilename (mimeType : String) (now : Nat) : String :=
  let ext :=
    if mimeType = "image/jpeg" then "jpg"
    else if mimeType = "image/png" then "png"
    else if mimeType = "image/gif" then "gif"
    else if mimeType = "image/bmp" then "bmp"
    else if mimeType = "image/tiff" then "tiff"
    else if mimeType = "image/webp" then "webp"
    else if mimeType = "image/heic" then "heic"
    else if mimeType = "image/avif" then "avif"
    else if mimeType = "image/x-icon" then "ico"
    else "jpg"
  "meme-photo-" ++ toString now ++ "." ++ ext

/-- Successful download outcome: the validated blob and chosen filename. -/
structure DownloadOk where
  blobSize : Nat
  blobType : String
  filename : String
deriving DecidableEq

/-- Result of `downloadImage` together with whether `fetch` was reached:
the second component is `false` exactly when the function threw during the
pre-fetch URL validation. -/
abbrev DownloadOutcome := Except String DownloadOk × Bool

/-- `downloadImage` (`background/index.ts` lines 729–822).  The URL scheme
and SSRF checks run before `fetch`; afterwards the response is checked for
HTTP success, the 200MB size ceiling and the MIME allow-list, with a
distinct message for an empty `Content-Type`. -/
def downloadImage (u : UrlParts) (resp : FetchResponse) (now : Nat) :
    DownloadOutcome :=
  if u.protocol ≠ "https:" then
    (Except.error ("Unsupported protocol: " ++ u.protocol ++
      ". Only HTTPS URLs are supported for security."), false)
  else if isInternalIP u.hostname then
    (Except.error
      "Access to internal/private IP addresses is not allowed for security reasons.",
     false)
  else if ¬ respOk resp then
    (Except.error ("Failed to download image: " ++ toString resp.status ++ " " ++
      resp.statusText), true)
  else if resp.blobSize > MAX_FILE_SIZE then
    (Except.error "Image size exceeds 200MB limit", true)
  else if ¬ validTypes.contains resp.blobType then
    if resp.blobType = "" then
      (Except.error ("Unable to determine image format. The image server may have incorrect configuration. " ++
        "Try saving the image to your device first, then upload to Google Photos manually."), true)
    else
      (Except.error ("Unsupported image format: " ++ resp.blobType ++ ". " ++
        "Supported formats: JPEG, PNG, GIF, BMP, TIFF, WebP, HEIC, AVIF."), true)
  else
    (Except.ok
      { blobSize := resp.blobSize, blobType := resp.blobType,
        filename := (extractFilename u).getD (generateFilename resp.blobType now) },
     true)

/-! ### Two-phase upload with 401/429 handling
(`src/src/background/index.ts` lines 495–1015) -/

/-- The error classes thrown by the API adapters: `QuotaExceededError`
(HTTP 429), `TokenExpiredError` (HTTP 401, carrying the expired token) and
plain `Error` with a message. -/
inductive UploadError where
  | quotaExceeded
  | tokenExpired (expiredToken : String)
  | generic (msg : String)
deriving DecidableEq

/-- The fixed `QuotaExceededError` message. -/
def quotaMessage : String :=
  "Daily upload limit reached. Please try again tomorrow. (Google Photos API: 10,000 requests/day)"

/-- `error.message` of each error class (`TokenExpiredError` is constructed
with the fixed message `AUTH_TOKEN_EXPIRED`). -/
def UploadError.message : UploadError → String
  | .quotaExceeded => quotaMessage
  | .tokenExpired _ => "AUTH_TOKEN_EXPIRED"
  | .generic m => m

/-- Observables of one Photos API HTTP response: the status code and the
response body text (phase A's body is the upload token). -/
structure ApiResponse where
  status : Nat
  bodyText : String
deriving DecidableEq

/-- `response.ok` for an `ApiResponse`. -/
def apiOk (r : ApiResponse) : Bool := 200 ≤ r.status ∧ r.status < 300

/-- `uploadImageBytes` (`background/index.ts` lines 918–950): 429 throws
`QuotaExceededError`, 401 throws `TokenExpiredError(token)`, any other
non-2xx throws a generic error, otherwise the body text is the upload
token. -/
def uploadImageBytes (token : String) (resp : ApiResponse) :
    Except UploadError String :=
  if resp.status = 429 then Except.error .quotaExceeded
  else if resp.status = 401 then Except.error (.tokenExpired token)
  else if ¬ apiOk resp then
    Except.error (.generic ("Upload failed with status " ++ toString resp.status))
  else Except.ok resp.bodyText

/-- `GooglePhotosMediaItem`. -/
structure MediaItem where
  id : String
  productUrl : String
  baseUrl : String
  mimeType : String
  filename : String
deriving DecidableEq

/-- One element of `newMediaItemResults`: the optional per-item `status`
(`code`, `message`) and the optional `mediaItem`. -/
structure ItemResult where
  statusCode : Option Nat
  statusMessage : String
  mediaItem : Option MediaItem
deriving DecidableEq

/-- Observables of the phase-B response: status code plus the parsed JSON
body (`newMediaItemResults`). -/
structure CreateResponse where
  status : Nat
  newMediaItemResults : List ItemResult
deriving DecidableEq

/-- `response.ok` for a `CreateResponse`. -/
def createOk (r : CreateResponse) : Bool := 200 ≤ r.status ∧ r.status < 300

/-- `createMediaItem` (`background/index.ts` lines 960–1015): 429 throws
`QuotaExceededError`, 401 throws `TokenExpiredError(token)`, other non-2xx
throws a generic error; an empty `newMediaItemResults` and a truthy
`status?.code` on the first item are generic errors; otherwise the first
item's `mediaItem` is returned (it may be absent in the JSON, hence
`Option`). -/
def createMediaItem (token : String) (resp : CreateResponse) :
    Except UploadError (Option MediaItem) :=
  if resp.status = 429 then Except.error .quotaExceeded
  else if resp.status = 401 then Except.error (.tokenExpired token)
  else if ¬ createOk resp then
    Except.error (.generic ("Failed to create media item with status " ++ toString resp.status))
  else
    match resp.newMediaItemResults with
    | [] => Except.error (.generic "No media item created")
    | itemResult :: _ =>
      -- itemResult.status?.code is truthy exactly when present and nonzero
      match itemResult.statusCode with
      | some code =>
        if code ≠ 0 then
          Except.error (.generic ("Media item creation failed: " ++ itemResult.statusMessage))
        else Except.ok itemResult.mediaItem
      | none => Except.ok itemResult.mediaItem

/-- Outcome of running one phase inside `handleImageUpload`'s
`try`/`catch`: the final result, how many times the phase's `fetch` ran,
the tokens passed to `chrome.identity.removeCachedAuthToken`, and the token
variable's final value. -/
structure PhaseOutcome (α : Type) where
  result : Except UploadError α
  attempts : Nat
  removedTokens : List String
  finalToken : String

/-- The `try`/`catch` wrapper `handleImageUpload` places around each phase
(`background/index.ts` lines 536–546 and 579–599): on `TokenExpiredError`
it runs `refreshToken` (remove the cached token, then interactive
`getAuthToken`, here the oracle `refreshed`; `none` means no token came
back and `refreshToken` threw) and replays the phase once with the fresh
token; every other error, including a second `TokenExpiredError` from the
replay, propagates. -/
def runPhaseWithRetry {α : Type} (call : String → Nat → Except UploadError α)
    (token : String) (refreshed : Option String) : PhaseOutcome α :=
  match call token 0 with
  | .ok v => { result := .ok v, attempts := 1, removedTokens := [], finalToken := token }
  | .error e =>
    match e with
    | .tokenExpired expired =>
      match refreshed with
      | none =>
        { result := .error (.generic
            "Failed to refresh OAuth token. Please re-authorize the extension."),
          attempts := 1, removedTokens := [expired], finalToken := token }
      | some fresh =>
        { result := call fresh 1, attempts := 2,
          removedTokens := [expired], finalToken := fresh }
    | _ => { result := .error e, attempts := 1, removedTokens := [], finalToken := token }

/-- Phase A (byte upload) with the 401-retry wrapper; `resps n` is the
response to the `n`-th `fetch` of this phase within the job. -/
def runPhaseA (resps : Nat → ApiResponse) (token : String)
    (refreshed : Option String) : PhaseOutcome String :=
  runPhaseWithRetry (fun t n => uploadImageBytes t (resps n)) token refreshed

/-- Phase B (remote item creation) with the 401-retry wrapper. -/
def runPhaseB (resps : Nat → CreateResponse) (token : String)
    (refreshed : Option String) : PhaseOutcome (Option MediaItem) :=
  runPhaseWithRetry (fun t n => createMediaItem t (resps n)) token refreshed

/-- A terminal job failure as seen by the queue's error handler: either a
plain `Error` message or one of the structured upload errors. -/
inductive JobError where
  | plain (msg : String)
  | upload (e : UploadError)
deriving DecidableEq

/-- The success/failure skeleton of `handleImageUpload`
(`background/index.ts` lines 495–645) with every platform effect passed as
an oracle: the cached/interactive token (`tokenOpt`), the download result
(`dl`), per-attempt responses for the two phases, the refresh oracles, and
the album id after the validation block (whose own failures are caught and
degrade to `none`).  Toast calls and the history append cannot affect the
result (their errors are caught), so they are omitted here. -/
def handleImageUpload (tokenOpt : Option String) (dl : Except String DownloadOk)
    (aResps : Nat → ApiResponse) (bResps : Nat → CreateResponse)
    (refreshedA refreshedB : Option String) :
    Except JobError (Option MediaItem) :=
  match tokenOpt with
  | none => Except.error (.plain
      "Failed to obtain OAuth token. Please re-authorize the extension.")
  | some token =>
    match dl with
    | .error msg => Except.error (.plain msg)
    | .ok _ =>
      let pa := runPhaseA aResps token refreshedA
      match pa.result with
      | .error e => Except.error (.upload e)
      | .ok _ =>
        let pb := runPhaseB bResps pa.finalToken refreshedB
        match pb.result with
        | .error e => Except.error (.upload e)
        | .ok mediaItem => Except.ok mediaItem

/-! ### Binary metadata rewriter (`src/src/utils/imageProcessor.ts`)

Buffers are `List Nat` with elements `< 256` (`Uint8Array`).  An
out-of-bounds read yields JS `undefined`, which coerces to `0` under the
bitwise operators the source applies to every multi-byte read, so reads are
modelled by `List.getD _ _ 0`. -/

/-- Read `data[i]` (0 beyond the end, see above). -/
def byteAt (data : List Nat) (i : Nat) : Nat := data.getD i 0

/-- Big-endian 16-bit integer as two bytes, as written by
`DataView.setUint16(_, _, false)`. -/
def u16be (n : Nat) : List Nat := [n / 256 % 256, n % 256]

/-- Little-endian 16-bit integer as two bytes
(`DataView.setUint16(_, _, true)`). -/
def u16le (n : Nat) : List Nat := [n % 256, n / 256 % 256]

/-- Little-endian 32-bit integer as four bytes
(`DataView.setUint32(_, _, true)`). -/
def u32le (n : Nat) : List Nat :=
  [n % 256, n / 256 % 256, n / 65536 % 256, n / 16777216 % 256]

/-- One 12-byte IFD directory entry: 2-byte tag, 2-byte type, 4-byte count,
4-byte value/offset, all little-endian. -/
def ifdEntry (tag typ count value : Nat) : List Nat :=
  u16le tag ++ u16le typ ++ u32le count ++ u32le value

/-- Offset of IFD0 from the TIFF header start (`ifd0Offset`). -/
def ifd0Offset : Nat := 8

/-- `ifd0Size = 2 + 1 * 12 + 4`. -/
def ifd0Size : Nat := 2 + 1 * 12 + 4

/-- `exifIfdOffset = ifd0Offset + ifd0Size` = 26. -/
def exifIfdOffset : Nat := ifd0Offset + ifd0Size

/-- `exifIfdSize = 2 + 3 * 12 + 4`. -/
def exifIfdSize : Nat := 2 + 3 * 12 + 4

/-- `dateTimeDataOffset = exifIfdOffset + exifIfdSize` = 68. -/
def dateTimeDataOffset : Nat := exifIfdOffset + exifIfdSize

/-- `String(n).padStart(2, '0')`. -/
def pad2 (n : Nat) : String := if n < 10 then "0" ++ toString n else toString n

/-- `formatExifDateTime` (`imageProcessor.ts` lines 307–316).  The source
reads the six components off a `Date` (with `getMonth() + 1`); here they
are the explicit arguments. -/
def formatExifDateTime (year month day hours minutes seconds : Nat) : String :=
  toString year ++ ":" ++ pad2 month ++ ":" ++ pad2 day ++ " " ++
    pad2 hours ++ ":" ++ pad2 minutes ++ ":" ++ pad2 seconds

/-- `TextEncoder().encode` restricted to ASCII strings (the formatter's
output is pure ASCII, where UTF-8 is the identity on char codes). -/
def strToBytes (s : String) : List Nat := s.data.map Char.toNat

/-- `createMinimalExifSegment` (`imageProcessor.ts` lines 179–298) as a
function of `dateTimeBytes` (the encoded timestamp string plus its null
terminator; the source builds it from the current wall-clock time).  The
source fills a zero-initialised `Uint8Array` with strictly consecutive
`DataView`/`set` writes — marker, big-endian length, `"Exif\0\0"`, TIFF
header, IFD0 with the single Exif-pointer entry, the Exif IFD with the
three timestamp entries, then the three separately stored copies of
`dateTimeBytes` at `dateTimeDataOffset`, `+ len` and `+ 2 * len` — so the
buffer equals this concatenation. -/
def createMinimalExifSegment (dateTimeBytes : List Nat) : List Nat :=
  [0xFF, 0xE1] ++
  u16be (6 + (dateTimeDataOffset + dateTimeBytes.length * 3) + 2) ++
  [0x45, 0x78, 0x69, 0x66, 0x00, 0x00] ++            -- "Exif\0\0"
  [0x49, 0x49] ++ u16le 0x2A ++ u32le ifd0Offset ++  -- TIFF header, "II"
  u16le 1 ++                                         -- IFD0: one entry
  ifdEntry 0x8769 4 1 exifIfdOffset ++               -- ExifIFDPointer
  u32le 0 ++                                         -- next IFD offset
  u16le 3 ++                                         -- Exif IFD: 3 entries
  ifdEntry 0x9003 2 dateTimeBytes.length dateTimeDataOffset ++
  ifdEntry 0x9004 2 dateTimeBytes.length (dateTimeDataOffset + dateTimeBytes.length) ++
  ifdEntry 0x0132 2 dateTimeBytes.length (dateTimeDataOffset + dateTimeBytes.length * 2) ++
  u32le 0 ++                                         -- next IFD offset
  dateTimeBytes ++ dateTimeBytes ++ dateTimeBytes

/-- The `marker === 0xFFE1` Exif test: the six bytes at
`data.slice(offset + 4, offset + 10)` rendered by `String.fromCharCode`
start with `'Exif'`, i.e. the first four of them are `E x i f`. -/
def exifCheckAt (data : List Nat) (offset : Nat) : Bool :=
  (data.drop (offset + 4)).take 4 = [0x45, 0x78, 0x69, 0x66]

/-- The marker walk of `replaceJpegExifWithCurrentTime`
(`imageProcessor.ts` lines 94–151), returning the list of pushed segments
after the SOI and new-Exif pushes.  Each branch mirrors the `while` loop:
skip non-`0xFF` bytes; at `0xFFD9` (EOI) or `0xFFDA` (SOS) push the rest of
the buffer and stop; copy standalone `RST0`–`RST7` markers; stop when fewer
than 4 bytes remain; on a declared segment end past the buffer push the
rest and stop; drop an `APP1` segment whose payload starts with `Exif`;
otherwise copy the segment.  (`data[offset]` is `0xFF` when a marker is
read, so `marker = 0xFF00 + data[offset+1]`; byte values are `< 256` in a
`Uint8Array`, making `|` plain addition here.) -/
def jpegWalk (data : List Nat) (offset : Nat) : List (List Nat) :=
  -- `marker` is `0xFF00 + data[offset+1]`, `segmentLength` is
  -- `data[offset+2] * 256 + data[offset+3]` and `segmentEnd` is
  -- `offset + 2 + segmentLength`, written out at each use site
  if _h : offset < data.length then
    if byteAt data offset ≠ 0xFF then jpegWalk data (offset + 1)
    else if 0xFF00 + byteAt data (offset + 1) = 0xFFD9 then [data.drop offset]
    else if 0xFF00 + byteAt data (offset + 1) = 0xFFDA then [data.drop offset]
    else if 0xFFD0 ≤ 0xFF00 + byteAt data (offset + 1) ∧
        0xFF00 + byteAt data (offset + 1) ≤ 0xFFD7 then
      (data.drop offset).take 2 :: jpegWalk data (offset + 2)
    else if offset + 4 > data.length then []
    else if offset + 2 + (byteAt data (offset + 2) * 256 + byteAt data (offset + 3)) >
        data.length then [data.drop offset]
    else if 0xFF00 + byteAt data (offset + 1) = 0xFFE1 ∧ exifCheckAt data offset then
      jpegWalk data (offset + 2 + (byteAt data (offset + 2) * 256 + byteAt data (offset + 3)))
    else
      (data.drop offset).take
          (offset + 2 + (byteAt data (offset + 2) * 256 + byteAt data (offset + 3)) - offset) ::
        jpegWalk data (offset + 2 + (byteAt data (offset + 2) * 256 + byteAt data (offset + 3)))
  else []
termination_by data.length - offset
decreasing_by
  · omega
  · omega
  · omega
  · omega

/-- `replaceJpegExifWithCurrentTime` (`imageProcessor.ts` lines 71–164) as
a function of the formatted current time: a missing `FFD8` signature throws
(`none`); otherwise the output is the SOI marker, the fresh Exif segment,
then the walked segments concatenated (`dateTimeBytes` is the formatted
string plus the null terminator). -/
def replaceJpegExifWithCurrentTime (dateTimeStr : String) (data : List Nat) :
    Option (List Nat) :=
  if byteAt data 0 = 0xFF ∧ byteAt data 1 = 0xD8 then
    some ([0xFF, 0xD8] ++ createMinimalExifSegment (strToBytes dateTimeStr ++ [0]) ++
      (jpegWalk data 2).flatten)
  else none

/-- `stripExifMetadata` (`imageProcessor.ts` lines 37–63): JPEG blobs go
through the rewriter with any rewriter error caught and the original bytes
returned; every other MIME type passes through unchanged. -/
def stripExifMetadata (mimeType : String) (dateTimeStr : String)
    (data : List Nat) : List Nat :=
  if mimeType = "image/jpeg" then
    match replaceJpegExifWithCurrentTime dateTimeStr data with
    | some processed => processed
    | none => data
  else data

/-! Structural description of well-formed JPEG segment streams, used to
state what the walk does on valid containers. -/

/-- One JPEG segment between SOI and the scan data: either a standalone
restart marker or a length-prefixed segment with its payload. -/
inductive JSeg where
  | rst (m : Nat)
  | seg (m : Nat) (payload : List Nat)
deriving DecidableEq

/-- Byte encoding of a segment: restart markers are the bare marker pair;
other segments carry the big-endian length (payload plus the two length
bytes) then the payload. -/
def encodeJSeg : JSeg → List Nat
  | .rst m => [0xFF, m]
  | .seg m payload => [0xFF, m] ++ u16be (payload.length + 2) ++ payload

/-- Encoding of a segment list. -/
def encodeJSegs (segs : List JSeg) : List Nat := (segs.map encodeJSeg).flatten

/-- Well-formedness of one segment: restart markers are `FFD0`–`FFD7`;
other segments have a marker byte below 256 that is not EOI, SOS or a
restart marker, and a payload whose length fits the 16-bit length field. -/
def wfJSeg : JSeg → Prop
  | .rst m => 0xD0 ≤ m ∧ m ≤ 0xD7
  | .seg m payload =>
    m < 256 ∧ m ≠ 0xD9 ∧ m ≠ 0xDA ∧ ¬ (0xD0 ≤ m ∧ m ≤ 0xD7) ∧
      payload.length + 2 ≤ 0xFFFF

/-- The segments the walk drops: an `APP1` (`FFE1`) segment whose payload
starts with the ASCII bytes `Exif`. -/
def isExifSeg : JSeg → Bool
  | .rst _ => false
  | .seg m payload => m = 0xE1 ∧ payload.take 4 = [0x45, 0x78, 0x69, 0x66]

/-- A buffer suffix on which the walk, from any position, stops and pushes
the whole suffix: the scan-data/EOI tail of a valid stream, and also a
segment whose declared length overruns the buffer. -/
def TailStops (tail : List Nat) : Prop :=
  ∀ pre : List Nat, jpegWalk (pre ++ tail) pre.length = [tail]

/-! ### The serialized upload queue (`src/src/background/index.ts` lines
351–420)

The listener keeps a module-level promise and, per click, reassigns
`uploadQueue = uploadQueue.then(job).catch(handler)`: job N+1's body is a
continuation registered on the tail of job N's settled chain.  The model is
a single-threaded event loop with a FIFO microtask queue: a job is a list
of atomic steps separated by `await` points (`true` = the step returns,
`false` = it throws, rejecting the job's promise); a continuation becomes
runnable only when the promise it is registered on settles, and the chain
promise for job N settles after job N fulfils or after the `.catch` handler
absorbs its rejection. -/

/-- Observable events of one queue execution. -/
inductive QEvent where
  | stepRun (n i : Nat)
  | stepThrew (n i : Nat)
  | handlerRun (n : Nat)
  | chainSettled (n : Nat)
deriving DecidableEq

/-- Microtask-queue continuations: begin job `n` (registered on chain
`n-1`'s settlement), resume job `n` at step `i` with the given remaining
steps, or run the `.catch` handler for job `n`. -/
inductive Cont where
  | start (n : Nat)
  | step (n i : Nat) (remaining : List Bool)
  | handler (n : Nat)
deriving DecidableEq

/-- When chain `n` settles the continuation registered for job `n+1`
becomes runnable. -/
def startNext (jobs : List (List Bool)) (n : Nat) : List Cont :=
  if n + 1 < jobs.length then [.start (n + 1)] else []

/-- Process one continuation: the events it emits and the continuations it
makes runnable. -/
def procCont (jobs : List (List Bool)) : Cont → List QEvent × List Cont
  | .start n =>
    match jobs.get? n with
    | none => ([], [])
    | some steps => ([], [.step n 0 steps])
  | .step n i remaining =>
    match remaining with
    | [] => ([.chainSettled n], startNext jobs n)
    | ok :: rest =>
      if ok then ([.stepRun n i], [.step n (i + 1) rest])
      else ([.stepRun n i, .stepThrew n i], [.handler n])
  | .handler n => ([.handlerRun n, .chainSettled n], startNext jobs n)

/-- The event loop: repeatedly pop the front microtask and run it,
appending newly-runnable continuations at the back (FIFO). -/
def runQueue (jobs : List (List Bool)) : Nat → List Cont → List QEvent → List QEvent
  | 0, _, evs => evs
  | _ + 1, [], evs => evs
  | fuel + 1, c :: rest, evs =>
    let r := procCont jobs c
    runQueue jobs fuel (rest ++ r.2) (evs ++ r.1)

/-- Enough ticks to drain the whole chain. -/
def chainFuel (jobs : List (List Bool)) : Nat :=
  (jobs.map (fun s => s.length + 3)).sum + 1

/-- The full event trace of submitting every job (in order) on the chain
and running the loop to quiescence. -/
def execTrace (jobs : List (List Bool)) : List QEvent :=
  runQueue jobs (chainFuel jobs) [.start 0] []

/-- The intended serial behaviour of one job: its steps run in order until
one throws; a throw reaches the `.catch` handler; either way the chain
settles at the end. -/
def jobTraceGo (n : Nat) : Nat → List Bool → List QEvent
  | _, [] => [.chainSettled n]
  | i, ok :: rest =>
    if ok then .stepRun n i :: jobTraceGo n (i + 1) rest
    else [.stepRun n i, .stepThrew n i, .handlerRun n, .chainSettled n]

/-- Serial trace of job `n`. -/
def jobTrace (n : Nat) (steps : List Bool) : List QEvent := jobTraceGo n 0 steps

/-- Serial trace of jobs `n, n+1, …`: each job runs to settlement before
the next begins. -/
def serialTraceFrom (jobs : List (List Bool)) (n : Nat) : List QEvent :=
  if _h : n < jobs.length then
    jobTrace n (jobs.getD n []) ++ serialTraceFrom jobs (n + 1)
  else []
termination_by jobs.length - n

/-- Serial trace of the whole submission list. -/
def serialTrace (jobs : List (List Bool)) : List QEvent := serialTraceFrom jobs 0

/-- Machine ticks needed to drain the chain from job `n` on. -/
def fuelFrom (jobs : List (List Bool)) (n : Nat) : Nat :=
  ((jobs.drop n).map (fun s => s.length + 3)).sum

/-- The job an event belongs to. -/
def eventJob : QEvent → Nat
  | .stepRun n _ => n
  | .stepThrew n _ => n
  | .handlerRun n => n
  | .chainSettled n => n

/-! ### Claim-side (specification) definitions

These are written from the spec's words, not from the source, and are used
to state the claims independently of the embedded code. -/

/-- Decimal digit list of a natural number (most significant first), used
to reason about `Nat.repr` (= JS `String(n)` for naturals). -/
def digitsOf (n : Nat) : List Char :=
  if n < 10 then [Nat.digitChar n]
  else digitsOf (n / 10) ++ [Nat.digitChar (n % 10)]
termination_by n
decreasing_by
  exact Nat.div_lt_self (by omega) (by omega)

/-- Canonical dotted-quad rendering of an IPv4 address. -/
def canonIPv4 (a b c d : Nat) : String :=
  toString a ++ "." ++ toString b ++ "." ++ toString c ++ "." ++ toString d

/-- Inverse of `splitChars`: interleave the separator between the groups. -/
def joinSep (sep : Char) : List (List Char) → List Char
  | [] => []
  | [g] => g
  | g :: gs => g ++ sep :: joinSep sep gs

/-- The textual forms `isInternalIP`'s checks compare against: `localhost`,
a dotted quad in the loopback/RFC1918/link-local/carrier-NAT ranges, or one
of the unbracketed IPv6 loopback/link-local/unique-local spellings.  The
WHATWG URL parser never produces the IPv6 ones as `url.hostname` (it
serializes IPv6 hosts in brackets), so only the first two disjuncts are
reachable from `downloadImage`'s call site. -/
def InternalHostTextual (h : String) : Prop :=
  h = "localhost" ∨
  (∃ a b c d, a ≤ 255 ∧ b ≤ 255 ∧ c ≤ 255 ∧ d ≤ 255 ∧ h = canonIPv4 a b c d ∧
    (a = 127 ∨ a = 10 ∨ (a = 172 ∧ 16 ≤ b ∧ b ≤ 31) ∨ (a = 192 ∧ b = 168) ∨
     (a = 169 ∧ b = 254) ∨ (a = 100 ∧ 64 ≤ b ∧ b ≤ 127))) ∨
  h = "::1" ∨ h = "0:0:0:0:0:0:0:1" ∨
  strStartsWith h "fe80:" = true ∨
  (strContainsChar h ':' = true ∧
    (strStartsWith h "fc" = true ∨ strStartsWith h "fd" = true))

/-- Claim side of C1: the hostname, as the WHATWG URL parser serializes it
into `url.hostname`, names an internal/private network target —
`localhost`, a dotted quad in the loopback/RFC1918/link-local/carrier-NAT
ranges, or a bracketed IPv6 loopback/link-local/unique-local address (the
parser serializes IPv6 hosts in brackets: `new URL("https://[::1]/x")` has
hostname `"[::1]"`; an unbracketed IPv6 authority is not a valid URL). -/
def InternalHostSpec (h : String) : Prop :=
  h = "localhost" ∨
  (∃ a b c d, a ≤ 255 ∧ b ≤ 255 ∧ c ≤ 255 ∧ d ≤ 255 ∧ h = canonIPv4 a b c d ∧
    (a = 127 ∨ a = 10 ∨ (a = 172 ∧ 16 ≤ b ∧ b ≤ 31) ∨ (a = 192 ∧ b = 168) ∨
     (a = 169 ∧ b = 254) ∨ (a = 100 ∧ 64 ≤ b ∧ b ≤ 127))) ∨
  h = "[::1]" ∨ h = "[0:0:0:0:0:0:0:1]" ∨
  strStartsWith h "[fe80:" = true ∨
  (strContainsChar h ':' = true ∧
    (strStartsWith h "[fc" = true ∨ strStartsWith h "[fd" = true))

/-- The 78 fixed bytes preceding the three timestamp values in the fresh
Exif segment (marker, length, `"Exif\0\0"`, TIFF header, IFD0, Exif IFD),
for a 20-byte timestamp value. -/
def exifLit : List Nat :=
  [0xFF, 0xE1, 0, 136,
   69, 120, 105, 102, 0, 0,
   73, 73, 42, 0, 8, 0, 0, 0,
   1, 0,
   105, 135, 4, 0, 1, 0, 0, 0, 26, 0, 0, 0,
   0, 0, 0, 0,
   3, 0,
   3, 144, 2, 0, 20, 0, 0, 0, 68, 0, 0, 0,
   4, 144, 2, 0, 20, 0, 0, 0, 88, 0, 0, 0,
   50, 1, 2, 0, 20, 0, 0, 0, 108, 0, 0, 0,
   0, 0, 0, 0]

/-- Independent Exif reader: little-endian 16-bit read at a byte offset of
the APP1 segment buffer. -/
def readU16le (seg : List Nat) (pos : Nat) : Nat :=
  byteAt seg pos + byteAt seg (pos + 1) * 256

/-- Independent Exif reader: little-endian 32-bit read. -/
def readU32le (seg : List Nat) (pos : Nat) : Nat :=
  byteAt seg pos + byteAt seg (pos + 1) * 256 +
    byteAt seg (pos + 2) * 65536 + byteAt seg (pos + 3) * 16777216

/-- Tag field of the IFD entry starting at `pos` in the segment buffer. -/
def readEntryTag (seg : List Nat) (pos : Nat) : Nat := readU16le seg pos

/-- Count field of the IFD entry starting at `pos`. -/
def readEntryCount (seg : List Nat) (pos : Nat) : Nat := readU32le seg (pos + 4)

/-- Value-offset field of the IFD entry starting at `pos`. -/
def readEntryValueOffset (seg : List Nat) (pos : Nat) : Nat :=
  readU32le seg (pos + 8)

/-- Read the ASCII value an IFD entry points at: `count` bytes at the
entry's value offset, which is relative to the TIFF header at byte 10 of
the APP1 segment. -/
def readAsciiValue (seg : List Nat) (pos : Nat) : List Nat :=
  (seg.drop (10 + readEntryValueOffset seg pos)).take (readEntryCount seg pos)

/-- Independent parser for the `YYYY:MM:DD HH:MM:SS` Exif timestamp
format: exactly 19 characters, colons/space at the fixed positions, digit
groups parsed decimally. -/
def parseExifDateTime (s : String) : Option (Nat × Nat × Nat × Nat × Nat × Nat) :=
  match s.data with
  | [y1, y2, y3, y4, c1, a1, a2, c2, b1, b2, sp, h1, h2, c3, i1, i2, c4, s1, s2] =>
    if c1 = ':' ∧ c2 = ':' ∧ sp = ' ' ∧ c3 = ':' ∧ c4 = ':' then
      match parseNat [y1, y2, y3, y4], parseNat [a1, a2], parseNat [b1, b2],
            parseNat [h1, h2], parseNat [i1, i2], parseNat [s1, s2] with
      | some yy, some mm, some dd, some hh, some ii, some ss =>
        some (yy, mm, dd, hh, ii, ss)
      | _, _, _, _, _, _ => none
    else none
  | _ => none

/-! ## Theorems -/

/-! ### Decimal-representation lemmas (`Nat.repr` = JS `String(n)`) -/

theorem toString_nat_eq_repr (n : Nat) : toString n = Nat.repr n := rfl

theorem toDigitsCore_eq_digitsOf (fuel : Nat) :
    ∀ (n : Nat) (ds : List Char), n < fuel →
      Nat.toDigitsCore 10 fuel n ds = digitsOf n ++ ds := by
  induction fuel with
  | zero => intro n ds h; omega
  | succ fuel ih =>
    intro n ds h
    simp only [Nat.toDigitsCore]
    by_cases hn : n / 10 = 0
    · rw [if_pos hn, digitsOf, if_pos (by omega), Nat.mod_eq_of_lt (by omega)]
      rfl
    · have hge : 10 ≤ n := by omega
      have hd : digitsOf n = digitsOf (n / 10) ++ [Nat.digitChar (n % 10)] := by
        rw [digitsOf, if_neg (by omega)]
      rw [if_neg hn, ih (n / 10) (Nat.digitChar (n % 10) :: ds) (by omega), hd,
        List.append_assoc]
      rfl

theorem repr_data (n : Nat) : (Nat.repr n).data = digitsOf n := by
  show (Nat.toDigits 10 n).asString.data = digitsOf n
  rw [Nat.toDigits, toDigitsCore_eq_digitsOf (n + 1) n [] (by omega)]
  simp [List.asString]

theorem digitChar_spec (k : Nat) (h : k < 10) :
    isDigitChar (Nat.digitChar k) = true ∧ digitVal (Nat.digitChar k) = k := by
  interval_cases k <;> exact ⟨by decide, by decide⟩

theorem digitsOf_ne_nil (n : Nat) : digitsOf n ≠ [] := by
  rw [digitsOf]
  by_cases h : n < 10
  · rw [if_pos h]; simp
  · rw [if_neg h]; simp

theorem digitsOf_all_digits (n : Nat) : (digitsOf n).all isDigitChar = true := by
  induction n using Nat.strong_induction_on with
  | _ n ih =>
    rw [digitsOf]
    by_cases h : n < 10
    · rw [if_pos h]
      simp [(digitChar_spec n h).1]
    · rw [if_neg h, List.all_append]
      simp [ih (n / 10) (by omega), (digitChar_spec (n % 10) (by omega)).1]

theorem digitsOf_foldl (n : Nat) :
    ∀ acc : Nat,
      (digitsOf n).foldl (fun a c => a * 10 + digitVal c) acc =
        acc * 10 ^ (digitsOf n).length + n := by
  induction n using Nat.strong_induction_on with
  | _ n ih =>
    intro acc
    rw [digitsOf]
    by_cases h : n < 10
    · rw [if_pos h]
      simp [List.foldl, (digitChar_spec n h).2]
    · rw [if_neg h]
      rw [List.foldl_append, ih (n / 10) (by omega) acc]
      simp only [List.foldl, List.length_append, List.length_cons,
        List.length_nil]
      rw [(digitChar_spec (n % 10) (by omega)).2]
      have h10 : 10 ^ ((digitsOf (n / 10)).length + (0 + 1)) =
          10 ^ (digitsOf (n / 10)).length * 10 := by ring
      rw [h10]
      have : n / 10 * 10 + n % 10 = n := by omega
      nlinarith [this]

theorem parseNat_digitsOf (n : Nat) : parseNat (digitsOf n) = some n := by
  rw [parseNat, if_pos ⟨digitsOf_ne_nil n, digitsOf_all_digits n⟩,
    digitsOf_foldl n 0]
  simp

theorem parseNat_repr (n : Nat) : parseNat (Nat.repr n).data = some n := by
  rw [repr_data]; exact parseNat_digitsOf n

theorem digitsOf_length_le (n e : Nat) (he : 0 < e) (h : n < 10 ^ e) :
    (digitsOf n).length ≤ e := by
  induction n using Nat.strong_induction_on generalizing e with
  | _ n ih =>
    rw [digitsOf]
    by_cases hn : n < 10
    · rw [if_pos hn]; simpa using he
    · rw [if_neg hn]
      have he2 : 2 ≤ e := by
        by_contra hc
        have : e = 1 := by omega
        subst this; simp at h; omega
      have hdiv : n / 10 < 10 ^ (e - 1) := by
        have hpow : 10 ^ e = 10 ^ (e - 1) * 10 := by
          conv_lhs => rw [show e = (e - 1) + 1 by omega]
          ring
        rw [Nat.div_lt_iff_lt_mul (by omega)]
        omega
      have := ih (n / 10) (by omega) (e - 1) (by omega) hdiv
      simp only [List.length_append, List.length_cons, List.length_nil]
      omega

theorem digitsOf_length_ge (k : Nat) :
    ∀ n : Nat, 10 ^ k ≤ n → k + 1 ≤ (digitsOf n).length := by
  induction k with
  | zero =>
    intro n _
    have := digitsOf_ne_nil n
    cases hd : digitsOf n with
    | nil => exact absurd hd this
    | cons a t => simp
  | succ k ih =>
    intro n hn
    have h10 : ¬ n < 10 := by
      have : 10 ^ 1 ≤ 10 ^ (k + 1) := Nat.pow_le_pow_right (by omega) (by omega)
      simp at this; omega
    rw [digitsOf, if_neg h10]
    have hdiv : 10 ^ k ≤ n / 10 := by
      rw [Nat.le_div_iff_mul_le (by omega)]
      calc 10 ^ k * 10 = 10 ^ (k + 1) := by ring
        _ ≤ n := hn
    have := ih (n / 10) hdiv
    simp only [List.length_append, List.length_cons, List.length_nil]
    omega

theorem digitsOf_length_eq_four (n : Nat) (h1 : 1000 ≤ n) (h2 : n ≤ 9999) :
    (digitsOf n).length = 4 := by
  have hle := digitsOf_length_le n 4 (by omega) (by omega)
  have hge := digitsOf_length_ge 3 n (by norm_num at *; omega)
  omega

/-! ### Generic list take/append lemma for the history truncation -/

theorem take_append_take {α : Type} (A B : List α) (n : Nat) :
    (A ++ B.take n).take n = (A ++ B).take n := by
  rw [List.take_append_eq_append_take, List.take_append_eq_append_take,
    List.take_take]
  have hmin : (n - A.length) ⊓ n = n - A.length := Nat.min_eq_left (by omega)
  rw [hmin]

/-! ### C6 supporting lemmas -/

theorem addRecords_eq (inputs : List RecordInput) :
    ∀ hist : List UploadRecord, hist.length ≤ 50 →
      addRecords inputs hist = ((inputs.map toRecord).reverse ++ hist).take 50 := by
  induction inputs with
  | nil =>
    intro hist h
    simp [addRecords, List.take_of_length_le h]
  | cons r rs ih =>
    intro hist h
    show addRecords rs (addUploadRecord r.1 r.2.1 r.2.2.1 r.2.2.2.1 r.2.2.2.2 hist) = _
    rw [show addUploadRecord r.1 r.2.1 r.2.2.1 r.2.2.2.1 r.2.2.2.2 hist =
      (toRecord r :: hist).take 50 from rfl]
    rw [ih ((toRecord r :: hist).take 50) (List.length_take_le 50 _)]
    rw [take_append_take]
    simp only [List.map_cons, List.reverse_cons, List.append_assoc,
      List.singleton_append]

/-- C6 : every append assigns the fresh id and current timestamp, prepends,
and truncates to the 50 most recent; appending a 51st record (51 appends
with pairwise-distinct fresh ids, starting from empty) leaves exactly the
50 newest in newest-first order, with the first-appended record dropped. -/
theorem C6_history_bound :
    (∀ freshId now f m p hist,
      (addUploadRecord freshId now f m p hist).head? =
        some { id := freshId, timestamp := now, filename := f,
               mediaItemId := m, productUrl := p }) ∧
    (∀ freshId now f m p hist,
      (addUploadRecord freshId now f m p hist).length =
        min (hist.length + 1) 50) ∧
    (∀ freshId now f m p hist,
      (addUploadRecord freshId now f m p hist).tail = hist.take 49) ∧
    (∀ inputs : List RecordInput, inputs.length = 51 →
      ((inputs.map toRecord).map UploadRecord.id).Nodup →
      addRecords inputs [] = ((inputs.map toRecord).drop 1).reverse ∧
      (addRecords inputs []).length = 50 ∧
      ∀ r0, (inputs.map toRecord).head? = some r0 → r0 ∉ addRecords inputs []) := by
  refine ⟨?_, ?_, ?_, ?_⟩
  · intro freshId now f m p hist
    rfl
  · intro freshId now f m p hist
    simp [addUploadRecord, MAX_RECORDS, List.length_take]
    omega
  · intro freshId now f m p hist
    rfl
  · intro inputs hlen hids
    have hrec : (inputs.map toRecord).length = 51 := by simp [hlen]
    have heq : addRecords inputs [] = ((inputs.map toRecord).drop 1).reverse := by
      rw [addRecords_eq inputs [] (by simp), List.append_nil]
      cases hm : inputs.map toRecord with
      | nil => rw [hm] at hrec; simp at hrec
      | cons r0 rest =>
        rw [hm] at hrec
        simp only [List.length_cons] at hrec
        have hr : rest.length = 50 := by omega
        simp only [List.reverse_cons, List.drop_one, List.tail_cons]
        rw [List.take_append_eq_append_take,
          List.take_of_length_le (by simp [hr]), List.length_reverse, hr]
        simp
    refine ⟨heq, ?_, ?_⟩
    · rw [heq]
      simp [hrec]
    · intro r0 hr0 hmem
      rw [heq] at hmem
      cases hm : inputs.map toRecord with
      | nil => rw [hm] at hr0; simp at hr0
      | cons rh rest =>
        rw [hm] at hr0 hmem hids
        simp only [List.head?_cons, Option.some.injEq] at hr0
        subst hr0
        simp only [List.drop_one, List.tail_cons, List.mem_reverse] at hmem
        simp only [List.map_cons, List.nodup_cons] at hids
        exact hids.1 (List.mem_map_of_mem UploadRecord.id hmem)

/-- Witness for C6: 51 concrete appends (ids `"0"`–`"50"`) onto an empty
history leave the 50 newest in newest-first order with the first record
gone. -/
theorem C6_history_bound_witness :
    addRecords ((List.range 51).map (fun i => (toString i, i, "f", "m", "p"))) [] =
      ((((List.range 51).map (fun i => (toString i, i, "f", "m", "p"))).map
        toRecord).drop 1).reverse ∧
    (addRecords ((List.range 51).map (fun i => (toString i, i, "f", "m", "p"))) []).length = 50 ∧
    ∀ r0, ((((List.range 51).map (fun i => (toString i, i, "f", "m", "p"))).map
        toRecord).head? = some r0 →
      r0 ∉ addRecords ((List.range 51).map (fun i => (toString i, i, "f", "m", "p"))) []) :=
  C6_history_bound.2.2.2 _ (by decide) (by decide)

/-! ### Association-list (JS object) lemmas -/

theorem objGet_eq_none_iff (cache : ThumbnailCache) (k : String) :
    objGet cache k = none ↔ ∀ p ∈ cache, p.1 ≠ k := by
  unfold objGet
  rw [Option.map_eq_none', List.find?_eq_none]
  simp

theorem objGet_map_set (k : String) (v : ThumbnailCacheEntry) :
    ∀ cache : ThumbnailCache, (∃ p ∈ cache, p.1 = k) →
      objGet (cache.map (fun p => if p.1 = k then (k, v) else p)) k = some v := by
  intro cache
  induction cache with
  | nil => intro h; simp at h
  | cons a t ih =>
    intro h
    by_cases ha : a.1 = k
    · unfold objGet
      simp only [List.map_cons, if_pos ha]
      rw [List.find?_cons_of_pos _ (by simp)]
      rfl
    · unfold objGet
      simp only [List.map_cons, if_neg ha]
      rw [List.find?_cons_of_neg _ (by simp [ha])]
      apply ih
      rcases h with ⟨p, hp, hpk⟩
      rcases List.mem_cons.mp hp with h1 | h2
      · exact absurd (h1 ▸ hpk) ha
      · exact ⟨p, h2, hpk⟩

theorem objGet_append_of_no_key (l l2 : ThumbnailCache) (k : String)
    (h : ∀ p ∈ l, p.1 ≠ k) : objGet (l ++ l2) k = objGet l2 k := by
  induction l with
  | nil => simp
  | cons a t ih =>
    unfold objGet
    rw [List.cons_append, List.find?_cons_of_neg _ (by simp [h a (by simp)])]
    exact ih (fun p hp => h p (List.mem_cons_of_mem a hp))

theorem objGet_objSet_self (cache : ThumbnailCache) (k : String)
    (v : ThumbnailCacheEntry) : objGet (objSet cache k v) k = some v := by
  unfold objSet
  by_cases h : cache.any (fun p => p.1 = k) = true
  · rw [if_pos h]
    apply objGet_map_set
    rcases List.any_eq_true.mp h with ⟨p, hp, hpk⟩
    exact ⟨p, hp, by simpa using hpk⟩
  · rw [if_neg h]
    have hno : ∀ p ∈ cache, p.1 ≠ k := by
      intro p hp hk
      exact h (List.any_eq_true.mpr ⟨p, hp, by simp [hk]⟩)
    rw [objGet_append_of_no_key _ _ _ hno]
    unfold objGet
    rw [List.find?_cons_of_pos _ (by simp)]
    rfl

theorem eq_of_mem_keys_nodup {l : ThumbnailCache} {p q : String × ThumbnailCacheEntry}
    (hnd : (l.map Prod.fst).Nodup) (hp : p ∈ l) (hq : q ∈ l) (hk : p.1 = q.1) :
    p = q := by
  induction l with
  | nil => simp at hp
  | cons a t ih =>
    simp only [List.map_cons, List.nodup_cons] at hnd
    rcases List.mem_cons.mp hp with hp1 | hp2 <;>
      rcases List.mem_cons.mp hq with hq1 | hq2
    · rw [hp1, hq1]
    · subst hp1
      exact absurd (hk ▸ List.mem_map_of_mem Prod.fst hq2) hnd.1
    · subst hq1
      exact absurd (hk ▸ List.mem_map_of_mem Prod.fst hp2) hnd.1
    · exact ih hnd.2 hp2 hq2

theorem objGet_of_mem {l : ThumbnailCache} {p : String × ThumbnailCacheEntry}
    (hnd : (l.map Prod.fst).Nodup) (hp : p ∈ l) : objGet l p.1 = some p.2 := by
  induction l with
  | nil => simp at hp
  | cons a t ih =>
    by_cases ha : a.1 = p.1
    · have : a = p := eq_of_mem_keys_nodup hnd (by simp) hp ha
      subst this
      unfold objGet
      rw [List.find?_cons_of_pos _ (by simp)]
      rfl
    · unfold objGet
      rw [List.find?_cons_of_neg _ (by simp [ha])]
      simp only [List.map_cons, List.nodup_cons] at hnd
      rcases List.mem_cons.mp hp with h1 | h2
      · exact absurd (h1 ▸ rfl) ha
      · exact ih hnd.2 h2

/-! ### C7 : cache TTL semantics (corrected claim) -/

/-- Counterexample to C7 as stated: its sources include the user-profile
cache (`getCachedProfile`), yet a profile-cache `get` hit performs no write
at all — at this concrete state the hit returns the entry and the stored
slot (including its only timestamp, `lastUpdated = 500`) is unchanged, so
not "every get hit updates the entry's last-accessed timestamp". -/
theorem C7_counterexample :
    (getCachedProfileSt 1000
      (some { name := "User", photoUrl := "", lastUpdated := 500 })).1 =
        some { name := "User", photoUrl := "", lastUpdated := 500 } ∧
    (getCachedProfileSt 1000
      (some { name := "User", photoUrl := "", lastUpdated := 500 })).2 =
        some { name := "User", photoUrl := "", lastUpdated := 500 } := by
  constructor <;> rfl

/-- C7 (amended): for both caches `get` reports absent when the key was
never cached and when the entry's age exceeds the TTL, checked lazily at
read time; an entry inserted at `T` is present at `T + TTL − 1` and absent
at `T + TTL + 1`; a thumbnail-cache hit updates the entry's
`lastAccessedAt` to the read time as a side effect, while a profile-cache
read performs no write and returns the stored entry unmodified. -/
theorem C7_cache_ttl :
    (∀ now cache id, objGet cache id = none →
      (getCachedThumbnail now cache id).value = none) ∧
    (∀ now cache id e, objGet cache id = some e →
      now - e.cachedAt > CACHE_EXPIRY_MS →
      (getCachedThumbnail now cache id).value = none) ∧
    (∀ T cache id url, url ≠ "" →
      (getCachedThumbnail (T + CACHE_EXPIRY_MS - 1)
        (cacheThumbnail T cache id url) id).value = some url ∧
      (getCachedThumbnail (T + CACHE_EXPIRY_MS + 1)
        (cacheThumbnail T cache id url) id).value = none) ∧
    (∀ now cache id e, objGet cache id = some e → e.base64DataUrl ≠ "" →
      ¬ (now - e.cachedAt > CACHE_EXPIRY_MS) →
      (getCachedThumbnail now cache id).value = some e.base64DataUrl ∧
      objGet (getCachedThumbnail now cache id).newCache id =
        some { e with lastAccessedAt := some now }) ∧
    (∀ now stored, (getCachedProfileSt now stored).2 = stored) ∧
    (∀ now, (getCachedProfileSt now none).1 = none) ∧
    (∀ now p, now - p.lastUpdated > PROFILE_CACHE_EXPIRY_MS →
      (getCachedProfileSt now (some p)).1 = none) ∧
    (∀ T name photo,
      (getCachedProfileSt (T + PROFILE_CACHE_EXPIRY_MS - 1)
        (some { name := name, photoUrl := photo, lastUpdated := T })).1 =
          some { name := name, photoUrl := photo, lastUpdated := T } ∧
      (getCachedProfileSt (T + PROFILE_CACHE_EXPIRY_MS + 1)
        (some { name := name, photoUrl := photo, lastUpdated := T })).1 = none) := by
  refine ⟨?_, ?_, ?_, ?_, ?_, ?_, ?_, ?_⟩
  · intro now cache id h
    simp only [getCachedThumbnail, h]
  · intro now cache id e h hexp
    simp only [getCachedThumbnail, h]
    by_cases hurl : e.base64DataUrl ≠ ""
    · simp only [if_pos hurl, if_pos hexp]
    · simp only [if_neg hurl]
  · intro T cache id url hurl
    have hins : objGet (cacheThumbnail T cache id url) id =
        some { base64DataUrl := url, cachedAt := T, lastAccessedAt := some T } :=
      objGet_objSet_self _ _ _
    have hage1 : ¬ (T + CACHE_EXPIRY_MS - 1 - T > CACHE_EXPIRY_MS) := by omega
    have hage2 : T + CACHE_EXPIRY_MS + 1 - T > CACHE_EXPIRY_MS := by omega
    constructor
    · simp only [getCachedThumbnail, hins]
      simp only [if_pos (show url ≠ "" from hurl), if_neg hage1]
    · simp only [getCachedThumbnail, hins]
      simp only [if_pos (show url ≠ "" from hurl), if_pos hage2]
  · intro now cache id e h hurl hfresh
    simp only [getCachedThumbnail, h, if_pos hurl, if_neg hfresh]
    exact ⟨trivial, objGet_objSet_self _ _ _⟩
  · intro now stored
    unfold getCachedProfileSt
    cases stored with
    | none => rfl
    | some cached => by_cases h : now - cached.lastUpdated > PROFILE_CACHE_EXPIRY_MS <;>
        simp [h]
  · intro now; rfl
  · intro now p h
    simp only [getCachedProfileSt, if_pos h]
  · intro T name photo
    have hage1 : ¬ (T + PROFILE_CACHE_EXPIRY_MS - 1 - T > PROFILE_CACHE_EXPIRY_MS) := by
      omega
    have hage2 : T + PROFILE_CACHE_EXPIRY_MS + 1 - T > PROFILE_CACHE_EXPIRY_MS := by
      omega
    constructor
    · simp only [getCachedProfileSt]
      rw [if_neg hage1]
    · simp only [getCachedProfileSt]
      rw [if_pos hage2]

/-- Witness for C7: a concrete entry cached at time 0 and read around the
TTL boundary, plus a concrete hit updating `lastAccessedAt`. -/
theorem C7_cache_ttl_witness :
    ((getCachedThumbnail (0 + CACHE_EXPIRY_MS - 1) (cacheThumbnail 0 [] "m1" "data:x") "m1").value
        = some "data:x" ∧
      (getCachedThumbnail (0 + CACHE_EXPIRY_MS + 1) (cacheThumbnail 0 [] "m1" "data:x") "m1").value
        = none) ∧
    ((getCachedThumbnail 5 [("m1", { base64DataUrl := "data:x", cachedAt := 3, lastAccessedAt := some 3 })] "m1").value = some "data:x" ∧
      objGet (getCachedThumbnail 5 [("m1", { base64DataUrl := "data:x", cachedAt := 3, lastAccessedAt := some 3 })] "m1").newCache "m1" =
        some { base64DataUrl := "data:x", cachedAt := 3, lastAccessedAt := some 5 }) :=
  ⟨C7_cache_ttl.2.2.1 0 [] "m1" "data:x" (by decide),
   C7_cache_ttl.2.2.2.1 5
     [("m1", { base64DataUrl := "data:x", cachedAt := 3, lastAccessedAt := some 3 })]
     "m1"
     { base64DataUrl := "data:x", cachedAt := 3, lastAccessedAt := some 3 }
     (by decide) (by decide) (by decide)⟩

/-! ### C10 : cache-write failures are invisible -/

/-- C10 : `cacheThumbnail` catches every storage error internally (on
failure it returns normally with the durable state unchanged), so
`getThumbnailDataUrl` returns the freshly fetched data URL even when the
cache write fails, and a successful fetch never becomes a `none` result. -/
theorem C10_cache_write_failure_invisible :
    (∀ env now cache id url, env.readFails = true ∨ env.writeFails = true →
      cacheThumbnailSafe env now cache id url = cache) ∧
    (∀ env now cache id u,
      (getCachedThumbnailSafe env now cache id).value = none →
      (getThumbnailDataUrl env now cache id (some u)).1 = some u) ∧
    (∀ env now cache id u,
      (getThumbnailDataUrl env now cache id (some u)).1 ≠ none) := by
  refine ⟨?_, ?_, ?_⟩
  · intro env now cache id url h
    unfold cacheThumbnailSafe
    rw [if_pos (by simpa using h)]
  · intro env now cache id u h
    simp only [getThumbnailDataUrl, h]
  · intro env now cache id u
    cases h : (getCachedThumbnailSafe env now cache id).value <;>
      simp [getThumbnailDataUrl, h]

/-- Witness for C10: with an empty cache and a write-failing store, the
fetched URL is still returned and the failing write leaves the store
unchanged. -/
theorem C10_cache_write_failure_invisible_witness :
    cacheThumbnailSafe { readFails := false, writeFails := true } 7 [] "m1" "u" = [] ∧
    (getThumbnailDataUrl { readFails := false, writeFails := true } 7 [] "m1"
      (some "u")).1 = some "u" :=
  ⟨C10_cache_write_failure_invisible.1 _ 7 [] "m1" "u" (Or.inr rfl),
   C10_cache_write_failure_invisible.2.1 _ 7 [] "m1" "u" (by decide)⟩

/-! ### C9 : the 200MB ceiling is inclusive -/

/-- C9 : the size check rejects only blobs strictly larger than
200×1024×1024 bytes: a blob of exactly that size passes the size
validation and (with a valid MIME type) the download succeeds, while any
strictly larger blob fails with the oversize error. -/
theorem C9_size_ceiling_inclusive :
    (∀ u resp now, u.protocol = "https:" → isInternalIP u.hostname = false →
      respOk resp = true → resp.blobSize = 200 * 1024 * 1024 →
      validTypes.contains resp.blobType = true →
      downloadImage u resp now =
        (Except.ok { blobSize := resp.blobSize, blobType := resp.blobType, filename := (extractFilename u).getD (generateFilename resp.blobType now) }, true)) ∧
    (∀ u resp now, u.protocol = "https:" → isInternalIP u.hostname = false →
      respOk resp = true → resp.blobSize > 200 * 1024 * 1024 →
      downloadImage u resp now =
        (Except.error "Image size exceeds 200MB limit", true)) := by
  constructor
  · intro u resp now hproto hip hok hsize htype
    unfold downloadImage
    rw [if_neg (by simp [hproto]), if_neg (by simp [hip]),
      if_neg (by simp [hok]), if_neg (by simp [MAX_FILE_SIZE]; omega),
      if_neg (by simpa using htype)]
  · intro u resp now hproto hip hok hsize
    unfold downloadImage
    rw [if_neg (by simp [hproto]), if_neg (by simp [hip]),
      if_neg (by simp [hok]), if_pos (by simp [MAX_FILE_SIZE]; omega)]

/-- Witness for C9: a 200MiB `image/jpeg` blob from a public HTTPS URL
downloads successfully; a blob one byte larger fails with the oversize
message. -/
theorem C9_size_ceiling_inclusive_witness :
    downloadImage { protocol := "https:", hostname := "example.com", pathname := "/a.jpg" }
      { status := 200, statusText := "OK", blobSize := 200 * 1024 * 1024, blobType := "image/jpeg" } 0 =
      (Except.ok { blobSize := 200 * 1024 * 1024, blobType := "image/jpeg", filename := "a.jpg" }, true) ∧
    downloadImage { protocol := "https:", hostname := "example.com", pathname := "/a.jpg" }
      { status := 200, statusText := "OK", blobSize := 200 * 1024 * 1024 + 1, blobType := "image/jpeg" } 0 =
      (Except.error "Image size exceeds 200MB limit", true) := by
  constructor
  · rw [C9_size_ceiling_inclusive.1 _ _ 0 (by decide) (by decide) (by decide)
      (by decide) (by decide)]
    rw [show (extractFilename { protocol := "https:", hostname := "example.com", pathname := "/a.jpg" }).getD (generateFilename "image/jpeg" 0) = "a.jpg" by decide]
  · exact C9_size_ceiling_inclusive.2 _ _ 0 (by decide) (by decide) (by decide)
      (by decide)

/-! ### C2 : credential-expiry retry and quota errors -/

/-- C2 : when phase A or phase B reports HTTP 401 the job removes the
cached token, acquires a fresh one, and replays exactly that phase once; a
401 from the replay propagates as a terminal job failure.  When either
phase reports HTTP 429 it terminates immediately with the distinct
quota-exceeded error, whose fixed message mentions the daily limit, with no
retry. -/
theorem C2_retry_once_and_quota :
    -- phase A, first 401: remove cached token, refresh, replay once
    (∀ resps token fresh, (resps 0).status = 401 →
      runPhaseA resps token (some fresh) =
        { result := uploadImageBytes fresh (resps 1), attempts := 2,
          removedTokens := [token], finalToken := fresh }) ∧
    -- phase A, second 401: terminal for the whole job
    (∀ token fresh dl aResps bResps rB, (aResps 0).status = 401 →
      (aResps 1).status = 401 →
      (runPhaseA aResps token (some fresh)).result =
          Except.error (UploadError.tokenExpired fresh) ∧
      handleImageUpload (some token) (Except.ok dl) aResps bResps (some fresh) rB =
        Except.error (JobError.upload (UploadError.tokenExpired fresh))) ∧
    -- phase A, 429: distinct error, no retry, nothing removed
    (∀ resps token r, (resps 0).status = 429 →
      runPhaseA resps token r =
        { result := Except.error UploadError.quotaExceeded, attempts := 1,
          removedTokens := [], finalToken := token }) ∧
    -- phase B, first 401: remove cached token, refresh, replay once
    (∀ resps token fresh, (resps 0).status = 401 →
      runPhaseB resps token (some fresh) =
        { result := createMediaItem fresh (resps 1), attempts := 2,
          removedTokens := [token], finalToken := fresh }) ∧
    -- phase B, second 401: terminal for the whole job
    (∀ token fresh dl aResps bResps rA, (aResps 0).status = 200 →
      (bResps 0).status = 401 → (bResps 1).status = 401 →
      (runPhaseB bResps token (some fresh)).result =
          Except.error (UploadError.tokenExpired fresh) ∧
      handleImageUpload (some token) (Except.ok dl) aResps bResps rA (some fresh) =
        Except.error (JobError.upload (UploadError.tokenExpired fresh))) ∧
    -- phase B, 429: terminal for the whole job, no retry
    (∀ token dl aResps bResps rA rB, (aResps 0).status = 200 →
      (bResps 0).status = 429 →
      runPhaseB bResps token rB =
        { result := Except.error UploadError.quotaExceeded, attempts := 1,
          removedTokens := [], finalToken := token } ∧
      handleImageUpload (some token) (Except.ok dl) aResps bResps rA rB =
        Except.error (JobError.upload UploadError.quotaExceeded)) ∧
    -- the quota error's fixed message mentions the daily limit
    (UploadError.quotaExceeded.message = quotaMessage ∧
      strStartsWith quotaMessage "Daily upload limit" = true) := by
  have hretryExp : ∀ {α : Type} (call : String → Nat → Except UploadError α)
      (token fresh expired : String),
      call token 0 = Except.error (UploadError.tokenExpired expired) →
      runPhaseWithRetry call token (some fresh) =
        { result := call fresh 1, attempts := 2, removedTokens := [expired],
          finalToken := fresh } := by
    intro α call token fresh expired h
    unfold runPhaseWithRetry
    rw [h]
  have hretryQuota : ∀ {α : Type} (call : String → Nat → Except UploadError α)
      (token : String) (r : Option String),
      call token 0 = Except.error UploadError.quotaExceeded →
      runPhaseWithRetry call token r =
        { result := Except.error UploadError.quotaExceeded, attempts := 1,
          removedTokens := [], finalToken := token } := by
    intro α call token r h
    unfold runPhaseWithRetry
    rw [h]
  have hretryOk : ∀ {α : Type} (call : String → Nat → Except UploadError α)
      (token : String) (r : Option String) (v : α),
      call token 0 = Except.ok v →
      runPhaseWithRetry call token r =
        { result := Except.ok v, attempts := 1, removedTokens := [],
          finalToken := token } := by
    intro α call token r v h
    unfold runPhaseWithRetry
    rw [h]
  have hbytes401 : ∀ t (r : ApiResponse), r.status = 401 →
      uploadImageBytes t r = Except.error (UploadError.tokenExpired t) := by
    intro t r h
    unfold uploadImageBytes
    rw [if_neg (by omega), if_pos h]
  have hbytes429 : ∀ t (r : ApiResponse), r.status = 429 →
      uploadImageBytes t r = Except.error UploadError.quotaExceeded := by
    intro t r h
    unfold uploadImageBytes
    rw [if_pos h]
  have hbytes200 : ∀ t (r : ApiResponse), r.status = 200 →
      uploadImageBytes t r = Except.ok r.bodyText := by
    intro t r h
    unfold uploadImageBytes
    rw [if_neg (by omega), if_neg (by omega), if_neg (by simp [apiOk, h])]
  have hcreate401 : ∀ t (r : CreateResponse), r.status = 401 →
      createMediaItem t r = Except.error (UploadError.tokenExpired t) := by
    intro t r h
    unfold createMediaItem
    rw [if_neg (by omega), if_pos h]
  have hcreate429 : ∀ t (r : CreateResponse), r.status = 429 →
      createMediaItem t r = Except.error UploadError.quotaExceeded := by
    intro t r h
    unfold createMediaItem
    rw [if_pos h]
  have hA401 : ∀ resps token fresh, (resps 0).status = 401 →
      runPhaseA resps token (some fresh) =
        { result := uploadImageBytes fresh (resps 1), attempts := 2,
          removedTokens := [token], finalToken := fresh } := by
    intro resps token fresh h
    exact hretryExp _ token fresh token (hbytes401 token (resps 0) h)
  have hB401 : ∀ resps token fresh, (resps 0).status = 401 →
      runPhaseB resps token (some fresh) =
        { result := createMediaItem fresh (resps 1), attempts := 2,
          removedTokens := [token], finalToken := fresh } := by
    intro resps token fresh h
    exact hretryExp _ token fresh token (hcreate401 token (resps 0) h)
  have hA429 : ∀ resps token r, (resps 0).status = 429 →
      runPhaseA resps token r =
        { result := Except.error UploadError.quotaExceeded, attempts := 1,
          removedTokens := [], finalToken := token } := by
    intro resps token r h
    exact hretryQuota _ token r (hbytes429 token (resps 0) h)
  have hB429 : ∀ resps token r, (resps 0).status = 429 →
      runPhaseB resps token r =
        { result := Except.error UploadError.quotaExceeded, attempts := 1,
          removedTokens := [], finalToken := token } := by
    intro resps token r h
    exact hretryQuota _ token r (hcreate429 token (resps 0) h)
  have hAok : ∀ resps token r, (resps 0).status = 200 →
      runPhaseA resps token r =
        { result := Except.ok (resps 0).bodyText, attempts := 1,
          removedTokens := [], finalToken := token } := by
    intro resps token r h
    exact hretryOk _ token r _ (hbytes200 token (resps 0) h)
  refine ⟨hA401, ?_, hA429, hB401, ?_, ?_, rfl, by decide⟩
  · intro token fresh dl aResps bResps rB h0 h1
    have hres : (runPhaseA aResps token (some fresh)).result =
        Except.error (UploadError.tokenExpired fresh) := by
      rw [hA401 aResps token fresh h0]
      exact hbytes401 fresh (aResps 1) h1
    refine ⟨hres, ?_⟩
    simp only [handleImageUpload, hA401 aResps token fresh h0,
      hbytes401 fresh (aResps 1) h1]
  · intro token fresh dl aResps bResps rA h200 h0 h1
    have hres : (runPhaseB bResps token (some fresh)).result =
        Except.error (UploadError.tokenExpired fresh) := by
      rw [hB401 bResps token fresh h0]
      exact hcreate401 fresh (bResps 1) h1
    refine ⟨hres, ?_⟩
    simp only [handleImageUpload, hAok aResps token rA h200,
      hB401 bResps token fresh h0, hcreate401 fresh (bResps 1) h1]
  · intro token dl aResps bResps rA rB h200 h429
    refine ⟨hB429 bResps token rB h429, ?_⟩
    simp only [handleImageUpload, hAok aResps token rA h200,
      hB429 bResps token rB h429]

/-- Witness for C2 at concrete responses: a 401 then 200 on phase A
replays once and succeeds; 401 twice is terminal; a 429 is terminal with
the daily-limit message and one attempt. -/
theorem C2_retry_once_and_quota_witness :
    runPhaseA (fun n => if n = 0 then { status := 401, bodyText := "" } else { status := 200, bodyText := "tok2" }) "t1" (some "t2") =
      { result := uploadImageBytes "t2" { status := 200, bodyText := "tok2" }, attempts := 2,
        removedTokens := ["t1"], finalToken := "t2" } ∧
    handleImageUpload (some "t1") (Except.ok { blobSize := 1, blobType := "image/jpeg", filename := "a.jpg" })
      (fun _ => { status := 401, bodyText := "" }) (fun _ => { status := 200, newMediaItemResults := [] })
      (some "t2") none =
      Except.error (JobError.upload (UploadError.tokenExpired "t2")) ∧
    runPhaseB (fun _ => { status := 429, newMediaItemResults := [] }) "t1" none =
      { result := Except.error UploadError.quotaExceeded, attempts := 1,
        removedTokens := [], finalToken := "t1" } ∧
    strStartsWith quotaMessage "Daily upload limit" = true := by
  refine ⟨?_, ?_, ?_, C2_retry_once_and_quota.2.2.2.2.2.2.2⟩
  · exact C2_retry_once_and_quota.1 _ "t1" "t2" (by decide)
  · exact (C2_retry_once_and_quota.2.1 "t1" "t2"
      { blobSize := 1, blobType := "image/jpeg", filename := "a.jpg" }
      _ _ none (by decide) (by decide)).2
  · exact (C2_retry_once_and_quota.2.2.2.2.2.1 "t1"
      { blobSize := 1, blobType := "image/jpeg", filename := "a.jpg" }
      (fun _ => { status := 200, bodyText := "x" }) _ none none (by decide) (by decide)).1

/-! ### C1 supporting lemmas : hostname parsing -/

theorem splitChars_ne_nil (sep : Char) : ∀ xs : List Char, splitChars sep xs ≠ [] := by
  intro xs
  cases xs with
  | nil => simp [splitChars]
  | cons c t =>
    unfold splitChars
    by_cases h : c = sep
    · simp [h]
    · rw [if_neg h]
      cases hs : splitChars sep t <;> simp

theorem splitChars_joinSep (sep : Char) : ∀ xs : List Char,
    joinSep sep (splitChars sep xs) = xs := by
  intro xs
  induction xs with
  | nil => rfl
  | cons c t ih =>
    unfold splitChars
    by_cases h : c = sep
    · rw [if_pos h]
      cases hs : splitChars sep t with
      | nil => exact absurd hs (splitChars_ne_nil sep t)
      | cons g gs =>
        rw [hs] at ih
        show sep :: joinSep sep (g :: gs) = c :: t
        rw [ih, h]
    · rw [if_neg h]
      cases hs : splitChars sep t with
      | nil => exact absurd hs (splitChars_ne_nil sep t)
      | cons g gs =>
        rw [hs] at ih
        cases gs with
        | nil =>
          show c :: g = c :: t
          rw [show joinSep sep [g] = g from rfl] at ih
          rw [ih]
        | cons g2 gs2 =>
          show (c :: g) ++ sep :: joinSep sep (g2 :: gs2) = c :: t
          rw [show joinSep sep (g :: g2 :: gs2) = g ++ sep :: joinSep sep (g2 :: gs2) from rfl] at ih
          simpa using ih

theorem splitChars_no_sep (sep : Char) : ∀ xs : List Char, sep ∉ xs →
    splitChars sep xs = [xs] := by
  intro xs
  induction xs with
  | nil => intro _; rfl
  | cons c t ih =>
    intro h
    unfold splitChars
    rw [if_neg (by intro hc; exact h (hc ▸ List.mem_cons_self c t)),
      ih (fun hm => h (List.mem_cons_of_mem c hm))]

theorem splitChars_append_sep (sep : Char) : ∀ (xs ys : List Char), sep ∉ xs →
    splitChars sep (xs ++ sep :: ys) = xs :: splitChars sep ys := by
  intro xs ys
  induction xs with
  | nil =>
    intro _
    show splitChars sep (sep :: ys) = [] :: splitChars sep ys
    simp [splitChars]
  | cons c t ih =>
    intro h
    have hc : ¬ (c = sep) := fun hc => h (hc ▸ List.mem_cons_self c t)
    have iht := ih (fun hm => h (List.mem_cons_of_mem c hm))
    show splitChars sep (c :: (t ++ sep :: ys)) = (c :: t) :: splitChars sep ys
    conv_lhs => rw [splitChars]
    rw [if_neg hc, iht]

theorem parseNat_all_digits {cs : List Char} {n : Nat} (h : parseNat cs = some n) :
    cs.all isDigitChar = true := by
  by_cases hc : cs ≠ [] ∧ cs.all isDigitChar
  · exact hc.2
  · rw [parseNat, if_neg hc] at h
    exact absurd h (by simp)

theorem parseNat3_all_digits {cs : List Char} {n : Nat}
    (h : parseIPv4.parseNat3 cs = some n) : cs.all isDigitChar = true := by
  by_cases hl : cs.length ≤ 3
  · rw [parseIPv4.parseNat3, if_pos hl] at h
    exact parseNat_all_digits h
  · rw [parseIPv4.parseNat3, if_neg hl] at h
    exact absurd h (by simp)

theorem parseIPv4_some_digits_or_dot {s : String} {q : Nat × Nat × Nat × Nat}
    (h : parseIPv4 s = some q) :
    ∀ c ∈ s.data, isDigitChar c = true ∨ c = '.' := by
  unfold parseIPv4 at h
  rcases hL : splitChars '.' s.data with _ | ⟨g1, L1⟩
  · exact absurd hL (splitChars_ne_nil '.' s.data)
  rw [hL] at h
  rcases L1 with _ | ⟨g2, L2⟩
  · simp at h
  rcases L2 with _ | ⟨g3, L3⟩
  · simp at h
  rcases L3 with _ | ⟨g4, L4⟩
  · simp at h
  rcases L4 with _ | ⟨g5, L5⟩
  case _ =>
    -- exactly four groups; each must parse as digits
    rcases hp1 : parseIPv4.parseNat3 g1 with _ | a
    · rw [List.map_cons, hp1] at h; simp at h
    rcases hp2 : parseIPv4.parseNat3 g2 with _ | b
    · rw [List.map_cons, List.map_cons, hp1, hp2] at h; simp at h
    rcases hp3 : parseIPv4.parseNat3 g3 with _ | c
    · simp only [List.map_cons, hp1, hp2, hp3] at h; simp at h
    rcases hp4 : parseIPv4.parseNat3 g4 with _ | d
    · simp only [List.map_cons, hp1, hp2, hp3, hp4] at h; simp at h
    have hjoin : s.data = g1 ++ '.' :: (g2 ++ '.' :: (g3 ++ '.' :: g4)) := by
      have := splitChars_joinSep '.' s.data
      rw [hL] at this
      exact this.symm
    intro ch hch
    rw [hjoin] at hch
    have hdig : ∀ {g : List Char}, g.all isDigitChar = true → ch ∈ g →
        isDigitChar ch = true := by
      intro g hg hm
      exact List.all_eq_true.mp hg ch hm
    rcases List.mem_append.mp hch with h1 | hrest
    · exact Or.inl (hdig (parseNat3_all_digits hp1) h1)
    rcases List.mem_cons.mp hrest with hdot | hrest2
    · exact Or.inr hdot
    rcases List.mem_append.mp hrest2 with h2 | hrest3
    · exact Or.inl (hdig (parseNat3_all_digits hp2) h2)
    rcases List.mem_cons.mp hrest3 with hdot | hrest4
    · exact Or.inr hdot
    rcases List.mem_append.mp hrest4 with h3 | hrest5
    · exact Or.inl (hdig (parseNat3_all_digits hp3) h3)
    rcases List.mem_cons.mp hrest5 with hdot | h4
    · exact Or.inr hdot
    · exact Or.inl (hdig (parseNat3_all_digits hp4) h4)
  case _ =>
    simp at h

theorem parseIPv4_none_of_colon {s : String} (h : ':' ∈ s.data) :
    parseIPv4 s = none := by
  rcases hp : parseIPv4 s with _ | q
  · rfl
  · rcases parseIPv4_some_digits_or_dot hp ':' h with hd | hd <;> exact absurd hd (by decide)

theorem dot_not_in_digits (n : Nat) : '.' ∉ digitsOf n := by
  intro hm
  have := List.all_eq_true.mp (digitsOf_all_digits n) '.' hm
  exact absurd this (by decide)

theorem parseNat3_repr (n : Nat) (h : n ≤ 255) :
    parseIPv4.parseNat3 (Nat.repr n).data = some n := by
  rw [parseIPv4.parseNat3, repr_data,
    if_pos (digitsOf_length_le n 3 (by omega) (by omega))]
  exact parseNat_digitsOf n

theorem parseIPv4_canon (a b c d : Nat) (ha : a ≤ 255) (hb : b ≤ 255)
    (hc : c ≤ 255) (hd : d ≤ 255) :
    parseIPv4 (canonIPv4 a b c d) = some (a, b, c, d) := by
  have hdata : (canonIPv4 a b c d).data =
      digitsOf a ++ '.' :: (digitsOf b ++ '.' :: (digitsOf c ++ '.' :: digitsOf d)) := by
    show (toString a ++ "." ++ toString b ++ "." ++ toString c ++ "." ++ toString d).data = _
    simp only [String.data_append, toString_nat_eq_repr, repr_data]
    simp [show ("." : String).data = ['.'] from rfl]
  have hsplit : splitChars '.' (canonIPv4 a b c d).data =
      [digitsOf a, digitsOf b, digitsOf c, digitsOf d] := by
    rw [hdata, splitChars_append_sep '.' _ _ (dot_not_in_digits a),
      splitChars_append_sep '.' _ _ (dot_not_in_digits b),
      splitChars_append_sep '.' _ _ (dot_not_in_digits c),
      splitChars_no_sep '.' _ (dot_not_in_digits d)]
  unfold parseIPv4
  rw [hsplit]
  simp only [List.map_cons, List.map_nil, ← repr_data,
    parseNat3_repr a ha, parseNat3_repr b hb, parseNat3_repr c hc,
    parseNat3_repr d hd]

theorem asciiLower_data (s : String) : (asciiLower s).data = s.data.map lowerChar := rfl

theorem isInternalIP_of_textual (h : String) (hspec : InternalHostTextual h) :
    isInternalIP h = true := by
  rcases hspec with hlocal | ⟨a, b, c, d, ha, hb, hc, hd, heq, hrange⟩ |
    hloop | hloop2 | hfe80 | ⟨hcolon, hula⟩
  · subst hlocal; decide
  · subst heq
    unfold isInternalIP
    by_cases hll : asciiLower (canonIPv4 a b c d) = "localhost"
    · rw [if_pos hll]
    · rw [if_neg hll, parseIPv4_canon a b c d ha hb hc hd]
      show ipv4InternalRange a b c d = true
      unfold ipv4InternalRange
      rw [if_neg (by omega)]
      rcases hrange with h1 | h1 | h1 | h1 | h1 | h1
      · rw [if_pos h1]
      · rw [if_neg (by omega), if_pos h1]
      · rw [if_neg (by omega), if_neg (by omega), if_pos h1]
      · rw [if_neg (by omega), if_neg (by omega), if_neg (by omega), if_pos h1]
      · rw [if_neg (by omega), if_neg (by omega), if_neg (by omega),
          if_neg (by omega), if_pos h1]
      · rw [if_neg (by omega), if_neg (by omega), if_neg (by omega),
          if_neg (by omega), if_neg (by omega), if_pos h1]
  · subst hloop; decide
  · subst hloop2; decide
  · -- hostname starts with "fe80:"
    obtain ⟨t, ht⟩ : ∃ t, h.data = ['f', 'e', '8', '0', ':'] ++ t := by
      obtain ⟨u, hu⟩ := List.isPrefixOf_iff_prefix.mp hfe80
      exact ⟨u, hu.symm⟩
    have hlow : (asciiLower h).data = ['f', 'e', '8', '0', ':'] ++ t.map lowerChar := by
      rw [asciiLower_data, ht, List.map_append]
      rfl
    unfold isInternalIP
    rw [if_neg (by
      intro hll
      have := congrArg String.data hll
      rw [hlow] at this
      simp [show ("localhost" : String).data = ['l','o','c','a','l','h','o','s','t'] from rfl] at this)]
    rw [parseIPv4_none_of_colon (by rw [ht]; simp)]
    show ipv6Internal (asciiLower h) = true
    unfold ipv6Internal
    rw [if_neg (by
      rintro (hll | hll) <;> {
        have := congrArg String.data hll
        rw [hlow] at this
        simp at this })]
    rw [if_pos (Or.inl (by
      show List.isPrefixOf _ _ = true
      rw [List.isPrefixOf_iff_prefix, hlow]
      exact ⟨t.map lowerChar, rfl⟩))]
  · -- hostname contains ':' and starts with "fc" or "fd"
    have hcmem : ':' ∈ h.data := by
      have : h.data.contains ':' = true := hcolon
      simpa using this
    obtain ⟨x, t, ht, hx⟩ : ∃ x t, h.data = 'f' :: x :: t ∧ (x = 'c' ∨ x = 'd') := by
      rcases hula with hfc | hfd
      · obtain ⟨t, ht⟩ := List.isPrefixOf_iff_prefix.mp hfc
        exact ⟨'c', t, by simpa using ht.symm, Or.inl rfl⟩
      · obtain ⟨t, ht⟩ := List.isPrefixOf_iff_prefix.mp hfd
        exact ⟨'d', t, by simpa using ht.symm, Or.inr rfl⟩
    have hxlow : lowerChar x = x := by rcases hx with h1 | h1 <;> subst h1 <;> decide
    have hlow : (asciiLower h).data = 'f' :: x :: t.map lowerChar := by
      rw [asciiLower_data, ht]
      simp [List.map_cons, hxlow, show lowerChar 'f' = 'f' from by decide]
    unfold isInternalIP
    rw [if_neg (by
      intro hll
      have := congrArg String.data hll
      rw [hlow] at this
      simp [show ("localhost" : String).data = ['l','o','c','a','l','h','o','s','t'] from rfl] at this)]
    rw [parseIPv4_none_of_colon hcmem]
    show ipv6Internal (asciiLower h) = true
    unfold ipv6Internal
    rw [if_neg (by
      rintro (hll | hll) <;> {
        have := congrArg String.data hll
        rw [hlow] at this
        simp at this })]
    rw [if_neg (by
      rintro (hll | hll) <;> {
        have := List.isPrefixOf_iff_prefix.mp hll
        obtain ⟨u, hu⟩ := this
        rw [hlow] at hu
        have : x = 'e' := by
          have := congrArg (fun l => l.get? 1) hu
          simpa using this.symm
        rcases hx with h1 | h1 <;> subst h1 <;> exact absurd this (by decide) })]
    rw [if_pos ?_]
    refine ⟨?_, ?_⟩
    · show (asciiLower h).data.contains ':' = true
      rw [hlow]
      have : ':' ∈ t := by
        rw [ht] at hcmem
        rcases List.mem_cons.mp hcmem with h1 | h1
        · exact absurd h1.symm (by decide)
        rcases List.mem_cons.mp h1 with h2 | h2
        · rcases hx with hx1 | hx1 <;> subst hx1 <;> exact absurd h2.symm (by decide)
        · exact h2
      have hmem : ':' ∈ (t.map lowerChar) :=
        List.mem_map.mpr ⟨':', this, by decide⟩
      simp [hmem]
    · rcases hx with h1 | h1
      · refine Or.inl ?_
        show List.isPrefixOf _ _ = true
        rw [List.isPrefixOf_iff_prefix, hlow, h1]
        exact ⟨t.map lowerChar, rfl⟩
      · refine Or.inr ?_
        show List.isPrefixOf _ _ = true
        rw [List.isPrefixOf_iff_prefix, hlow, h1]
        exact ⟨t.map lowerChar, rfl⟩

/-- The half of the SSRF check that does fire: a non-`https:` scheme, or a
hostname equal to one of the textual forms `isInternalIP` compares against
(localhost, the internal IPv4 ranges, the unbracketed IPv6 spellings),
makes `downloadImage` throw a validation error before the `fetch` call is
reached (second component `false`). -/
theorem ssrf_rejected_for_textual_forms (u : UrlParts) (resp : FetchResponse)
    (now : Nat) (h : u.protocol ≠ "https:" ∨ InternalHostTextual u.hostname) :
    ∃ msg, downloadImage u resp now = (Except.error msg, false) := by
  by_cases hp : u.protocol = "https:"
  · rcases h with hproto | hhost
    · exact absurd hp hproto
    · refine ⟨"Access to internal/private IP addresses is not allowed for security reasons.", ?_⟩
      unfold downloadImage
      rw [if_neg (by simp [hp]), if_pos (by simp [isInternalIP_of_textual _ hhost])]
  · refine ⟨"Unsupported protocol: " ++ u.protocol ++
      ". Only HTTPS URLs are supported for security.", ?_⟩
    unfold downloadImage
    rw [if_pos hp]

/-- `submit("https://169.254.169.254/secret")` fails before any fetch — the
cloud-metadata address is inside link-local 169.254.0.0/16. -/
theorem ssrf_rejected_metadata_address :
    ∃ msg, downloadImage { protocol := "https:", hostname := "169.254.169.254", pathname := "/secret" }
      { status := 200, statusText := "OK", blobSize := 10, blobType := "image/jpeg" } 0 =
      (Except.error msg, false) :=
  ssrf_rejected_for_textual_forms _ _ 0
    (Or.inr (Or.inr (Or.inl ⟨169, 254, 169, 254, by omega, by omega, by omega, by omega,
      by decide, by omega⟩)))

/-- C1 (code bug): the WHATWG URL parser serializes IPv6 hosts in brackets,
so for `submit("https://[::1]/x")` the hostname `downloadImage` validates
is `"[::1]"` — which names the IPv6 loopback target of the claim
(`InternalHostSpec`) — yet `isInternalIP` compares only against the
unbracketed spellings (it returns `true` on the bare `"::1"` it was written
for, a string `url.hostname` never yields), so the bracketed host passes
validation and `downloadImage` reaches `fetch` (flag `true`) and consumes
the network response: a 200 response is accepted and a 500 response is
reported as a download failure, not as the pre-fetch validation error that
the same request to the IPv4 metadata address receives. -/
theorem C1_bracketed_ipv6_reaches_fetch :
    InternalHostSpec "[::1]" ∧
    isInternalIP "[::1]" = false ∧
    isInternalIP "::1" = true ∧
    downloadImage { protocol := "https:", hostname := "[::1]", pathname := "/x" }
        { status := 200, statusText := "OK", blobSize := 10, blobType := "image/jpeg" } 0 =
      (Except.ok { blobSize := 10, blobType := "image/jpeg", filename := "meme-photo-0.jpg" }, true) ∧
    downloadImage { protocol := "https:", hostname := "[::1]", pathname := "/x" }
        { status := 500, statusText := "ERR", blobSize := 0, blobType := "" } 0 =
      (Except.error "Failed to download image: 500 ERR", true) ∧
    downloadImage { protocol := "https:", hostname := "169.254.169.254", pathname := "/x" }
        { status := 200, statusText := "OK", blobSize := 10, blobType := "image/jpeg" } 0 =
      (Except.error
        "Access to internal/private IP addresses is not allowed for security reasons.",
       false) :=
  ⟨Or.inr (Or.inr (Or.inl rfl)), by decide, by decide, rfl, rfl, rfl⟩

/-! ### C8 supporting lemmas and theorem : LRU eviction -/

theorem objGet_append_left {l l2 : ThumbnailCache} {k : String}
    {v : ThumbnailCacheEntry} (h : objGet l k = some v) :
    objGet (l ++ l2) k = some v := by
  unfold objGet at *
  rw [List.find?_append]
  rcases hf : l.find? (fun p => p.1 = k) with _ | p
  · rw [hf] at h; simp at h
  · rw [hf] at h
    rw [hf]
    exact h

/-- C8 : a `put` into a cache at capacity (with no expired entries and a
fresh key) first evicts exactly `evictCount` entries — between 1 and
`ceil(capacity × 0.1) + 1` — chosen among the oldest by last-accessed rank
(every evicted entry ranks no later than every surviving one), never evicts
a strictly most-recently-accessed entry, and then inserts the new entry
with the current time as both its created and last-accessed timestamps. -/
theorem C8_lru_eviction (now : Nat) (cache : ThumbnailCache) (id url : String)
    (hk : (cache.map Prod.fst).Nodup)
    (hlen : cache.length = MAX_CACHE_SIZE)
    (hfresh : ∀ p ∈ cache, now - p.2.cachedAt ≤ CACHE_EXPIRY_MS)
    (hid : ∀ p ∈ cache, p.1 ≠ id) :
    ((cacheThumbnail now cache id url).length = cache.length - evictCount + 1 ∧
      1 ≤ evictCount ∧ evictCount ≤ (MAX_CACHE_SIZE + 9) / 10 + 1) ∧
    objGet (cacheThumbnail now cache id url) id =
      some { base64DataUrl := url, cachedAt := now, lastAccessedAt := some now } ∧
    (∀ e ∈ cache, (∀ p ∈ cache, p ≠ e → lruKey p.2 < lruKey e.2) →
      objGet (cacheThumbnail now cache id url) e.1 = some e.2) ∧
    (∀ p ∈ cache, p ∉ cacheThumbnail now cache id url →
      ∀ q ∈ cache, q ∈ cacheThumbnail now cache id url →
        lruKey p.2 ≤ lruKey q.2) := by
  -- the purge removes nothing
  have hpurge : purgeExpired now cache = cache := by
    rw [purgeExpired, List.filter_eq_self]
    intro a ha
    have := hfresh a ha
    simp only [decide_eq_true_eq]
    omega
  -- facts about the sorted copy
  have hperm : lruSort cache |>.Perm cache := List.mergeSort_perm cache _
  have hpair : List.Pairwise (fun a b => lruKey a.2 ≤ lruKey b.2) (lruSort cache) := by
    have := @List.sorted_mergeSort _
      (fun a b : String × ThumbnailCacheEntry => decide (lruKey a.2 ≤ lruKey b.2))
      (fun a b c hab hbc => by
        simp only [decide_eq_true_eq] at *
        omega)
      (fun a b => by
        simp only [Bool.or_eq_true, decide_eq_true_eq]
        omega)
      cache
    refine this.imp ?_
    intro a b h
    simpa using h
  have hnd : cache.Nodup := List.Nodup.of_map Prod.fst hk
  have hnds : (lruSort cache).Nodup := hperm.symm.nodup hnd
  have hnks : ((lruSort cache).map Prod.fst).Nodup :=
    ((List.Perm.map Prod.fst hperm).symm).nodup hk
  have hlens : (lruSort cache).length = MAX_CACHE_SIZE := by
    rw [hperm.length_eq, hlen]
  have hsplit : (lruSort cache).take evictCount ++ (lruSort cache).drop evictCount =
      lruSort cache := List.take_append_drop evictCount (lruSort cache)
  have hdisj : ((lruSort cache).take evictCount).Disjoint
      ((lruSort cache).drop evictCount) := by
    have := hsplit ▸ hnds
    exact (List.nodup_append.mp this).2.2
  have hcross : ∀ a ∈ (lruSort cache).take evictCount,
      ∀ b ∈ (lruSort cache).drop evictCount, lruKey a.2 ≤ lruKey b.2 := by
    have := hsplit ▸ hpair
    exact (List.pairwise_append.mp this).2.2
  -- membership in the eviction set
  have hmemK : ∀ p ∈ cache, ((evictKeys cache).contains p.1 = true ↔
      p ∈ (lruSort cache).take evictCount) := by
    intro p hp
    constructor
    · intro hc
      have : p.1 ∈ evictKeys cache := by simpa using hc
      obtain ⟨q, hq, hqk⟩ := List.mem_map.mp this
      have hqc : q ∈ cache := hperm.mem_iff.mp (List.mem_of_mem_take hq)
      have : q = p := eq_of_mem_keys_nodup hk hqc hp hqk
      exact this ▸ hq
    · intro hmem
      have : p.1 ∈ evictKeys cache := List.mem_map_of_mem Prod.fst hmem
      simpa using this
  -- the capacity branch is taken
  have hev : evictIfFull cache =
      cache.filter (fun p => ¬ (evictKeys cache).contains p.1) := by
    rw [evictIfFull, if_pos (by rw [hlen])]
  -- the new key is appended
  have hfreshkey : ∀ p ∈ cache.filter (fun p => ¬ (evictKeys cache).contains p.1),
      p.1 ≠ id := fun p hp => hid p (List.mem_filter.mp hp).1
  have hres : cacheThumbnail now cache id url =
      cache.filter (fun p => ¬ (evictKeys cache).contains p.1) ++
        [(id, { base64DataUrl := url, cachedAt := now, lastAccessedAt := some now })] := by
    rw [cacheThumbnail, hpurge, hev, objSet,
      if_neg (by
        simp only [List.any_eq_true, not_exists, not_and]
        intro p hp hpk
        exact hfreshkey p hp (by simpa using hpk))]
  -- characterize membership in the result
  have hmemres : ∀ p ∈ cache, (p ∈ cacheThumbnail now cache id url ↔
      p ∉ (lruSort cache).take evictCount) := by
    intro p hp
    rw [hres]
    constructor
    · intro hmem
      rcases List.mem_append.mp hmem with h1 | h1
      · have := (List.mem_filter.mp h1).2
        simp only [decide_eq_true_eq] at this
        intro htake
        exact this ((hmemK p hp).mpr htake)
      · have : p = (id, { base64DataUrl := url, cachedAt := now, lastAccessedAt := some now }) := by
          simpa using h1
        exact absurd (congrArg Prod.fst this) (hid p hp)
    · intro hnot
      refine List.mem_append.mpr (Or.inl (List.mem_filter.mpr ⟨hp, ?_⟩))
      simp only [decide_eq_true_eq]
      intro hc
      exact hnot ((hmemK p hp).mp hc)
  -- the dropped entries are exactly the sorted head
  have hdropped : cache.filter (fun p => (evictKeys cache).contains p.1) =
      cache.filter (fun p => (evictKeys cache).contains p.1) := rfl
  have hdropped_perm :
      (cache.filter (fun p => (evictKeys cache).contains p.1)).Perm
        ((lruSort cache).take evictCount) := by
    have h1 : (cache.filter (fun p => (evictKeys cache).contains p.1)).Perm
        ((lruSort cache).filter (fun p => (evictKeys cache).contains p.1)) :=
      List.Perm.filter _ hperm.symm
    have h2 : (lruSort cache).filter (fun p => (evictKeys cache).contains p.1) =
        (lruSort cache).take evictCount := by
      conv_lhs => rw [← hsplit]
      rw [List.filter_append]
      rw [List.filter_eq_self.mpr (by
        intro a ha
        exact (hmemK a (hperm.mem_iff.mp (List.mem_of_mem_take ha))).mpr ha)]
      rw [List.filter_eq_nil_iff.mpr (by
        intro a ha hc
        have hac : a ∈ cache := hperm.mem_iff.mp (List.mem_of_mem_drop ha)
        exact hdisj ((hmemK a hac).mp hc) ha), List.append_nil]
    exact h2 ▸ h1
  have htakelen : ((lruSort cache).take evictCount).length = evictCount := by
    rw [List.length_take]
    have : evictCount ≤ MAX_CACHE_SIZE := by decide
    rw [Nat.min_eq_left (by rw [hlens]; exact this)]
  refine ⟨⟨?_, by decide, by decide⟩, ?_, ?_, ?_⟩
  · -- length accounting
    have hper : ((cache.filter (fun p => ¬ (evictKeys cache).contains p.1)) ++
        (cache.filter (fun p => !(decide (¬ (evictKeys cache).contains p.1 = true))))).Perm cache :=
      List.filter_append_perm _ cache
    have hlen2 : (cache.filter (fun p => ¬ (evictKeys cache).contains p.1)).length +
        (cache.filter (fun p => (evictKeys cache).contains p.1)).length = cache.length := by
      have := hper.length_eq
      rw [List.length_append] at this
      have hsame : (cache.filter (fun p => !(decide (¬ (evictKeys cache).contains p.1 = true)))) =
          cache.filter (fun p => (evictKeys cache).contains p.1) := by
        apply List.filter_congr
        intro a _
        simp
      rw [hsame] at this
      exact this
    have hdl : (cache.filter (fun p => (evictKeys cache).contains p.1)).length =
        evictCount := by
      rw [hdropped_perm.length_eq, htakelen]
    rw [hres, List.length_append]
    simp only [List.length_cons, List.length_nil]
    omega
  · -- the new entry is present with both timestamps set to now
    rw [hres]
    rw [objGet_append_of_no_key _ _ _ hfreshkey]
    unfold objGet
    rw [List.find?_cons_of_pos _ (by simp)]
    rfl
  · -- a strictly most-recently-used entry survives
    intro e he hmax
    have hnot : e ∉ (lruSort cache).take evictCount := by
      intro htake
      have hlt : evictCount < (lruSort cache).length := by
        rw [hlens]; decide
      have hdropne : (lruSort cache).drop evictCount ≠ [] := by
        intro hnil
        have := List.length_drop evictCount (lruSort cache)
        rw [hnil] at this
        simp at this
        omega
      obtain ⟨q, hq⟩ := List.exists_mem_of_ne_nil _ hdropne
      have hqc : q ∈ cache := hperm.mem_iff.mp (List.mem_of_mem_drop hq)
      have hne : q ≠ e := fun hqe => hdisj (hqe ▸ htake) hq
      have := hmax q hqc hne
      have := hcross e htake q hq
      omega
    have hmem : e ∈ cacheThumbnail now cache id url := (hmemres e he).mpr hnot
    rw [hres] at hmem ⊢
    rcases List.mem_append.mp hmem with h1 | h1
    · refine objGet_append_left (objGet_of_mem ?_ h1)
      have : (cache.filter (fun p => ¬ (evictKeys cache).contains p.1)).Sublist cache :=
        List.filter_sublist cache
      exact (this.map Prod.fst).nodup hk
    · have : e = (id, { base64DataUrl := url, cachedAt := now, lastAccessedAt := some now }) := by
        simpa using h1
      exact absurd (congrArg Prod.fst this) (hid e he)
  · -- every evicted entry ranks no later than every survivor
    intro p hp hpout q hq hqin
    have hptake : p ∈ (lruSort cache).take evictCount := by
      by_contra hc
      exact hpout ((hmemres p hp).mpr hc)
    have hqnot : q ∉ (lruSort cache).take evictCount := (hmemres q hq).mp hqin
    have hqdrop : q ∈ (lruSort cache).drop evictCount := by
      have : q ∈ lruSort cache := hperm.mem_iff.mpr hq
      rcases List.mem_append.mp (hsplit ▸ this) with h1 | h1
      · exact absurd h1 hqnot
      · exact h1
    exact hcross p hptake q hqdrop

/-- Witness for C8: a concrete 100-entry cache at capacity; inserting a
fresh key evicts exactly 10 entries, keeps the most-recently-accessed
entry `"k99"`, and stores the new entry with both timestamps `200`. -/
theorem C8_lru_eviction_witness :
    ((cacheThumbnail 200 ((List.range 100).map (fun i => (Nat.repr i ++ "k", ({ base64DataUrl := "u", cachedAt := 100, lastAccessedAt := some (100 + i) } : ThumbnailCacheEntry)))) "fresh" "u2").length = 91 ∧
      1 ≤ evictCount ∧ evictCount ≤ (MAX_CACHE_SIZE + 9) / 10 + 1) ∧
    objGet (cacheThumbnail 200 ((List.range 100).map (fun i => (Nat.repr i ++ "k", ({ base64DataUrl := "u", cachedAt := 100, lastAccessedAt := some (100 + i) } : ThumbnailCacheEntry)))) "fresh" "u2") "fresh" =
      some { base64DataUrl := "u2", cachedAt := 200, lastAccessedAt := some 200 } ∧
    objGet (cacheThumbnail 200 ((List.range 100).map (fun i => (Nat.repr i ++ "k", ({ base64DataUrl := "u", cachedAt := 100, lastAccessedAt := some (100 + i) } : ThumbnailCacheEntry)))) "fresh" "u2") "99k" =
      some { base64DataUrl := "u", cachedAt := 100, lastAccessedAt := some 199 } := by
  have h := C8_lru_eviction 200
    ((List.range 100).map (fun i => (Nat.repr i ++ "k", ({ base64DataUrl := "u", cachedAt := 100, lastAccessedAt := some (100 + i) } : ThumbnailCacheEntry))))
    "fresh" "u2" (by decide) (by decide) (by decide) (by decide)
  refine ⟨⟨?_, h.1.2.1, h.1.2.2⟩, h.2.1, ?_⟩
  · rw [h.1.1]; decide
  · have := h.2.2.1 ("99k", { base64DataUrl := "u", cachedAt := 100, lastAccessedAt := some 199 })
      (by decide) (by decide)
    exact this

/-! ### C3 supporting lemmas : the event-loop model runs the chain serially -/

theorem runQueue_empty (jobs : List (List Bool)) :
    ∀ fuel evs, runQueue jobs fuel [] evs = evs := by
  intro fuel evs
  cases fuel <;> rfl

theorem fuelFrom_succ (jobs : List (List Bool)) (n : Nat) (hn : n < jobs.length) :
    fuelFrom jobs n = (jobs.getD n []).length + 3 + fuelFrom jobs (n + 1) := by
  unfold fuelFrom
  rw [List.drop_eq_getElem_cons hn, List.map_cons, List.sum_cons,
    List.getD_eq_getElem?_getD, List.getElem?_eq_getElem hn]
  show jobs[n].length + 3 + _ = (jobs[n]).length + 3 + _
  rfl

theorem serialTraceFrom_pos (jobs : List (List Bool)) (n : Nat)
    (hn : n < jobs.length) :
    serialTraceFrom jobs n =
      jobTrace n (jobs.getD n []) ++ serialTraceFrom jobs (n + 1) := by
  rw [serialTraceFrom]
  simp [hn]

theorem serialTraceFrom_neg (jobs : List (List Bool)) (n : Nat)
    (hn : ¬ n < jobs.length) : serialTraceFrom jobs n = [] := by
  rw [serialTraceFrom]
  simp [hn]

theorem startNext_pos (jobs : List (List Bool)) (n : Nat) (h : n + 1 < jobs.length) :
    startNext jobs n = [Cont.start (n + 1)] := by
  unfold startNext
  rw [if_pos h]

theorem startNext_neg (jobs : List (List Bool)) (n : Nat) (h : ¬ n + 1 < jobs.length) :
    startNext jobs n = [] := by
  unfold startNext
  rw [if_neg h]

theorem procCont_start (jobs : List (List Bool)) (n : Nat) :
    procCont jobs (Cont.start n) =
      (match jobs.get? n with
       | none => ([], [])
       | some steps => ([], [Cont.step n 0 steps])) := rfl

theorem runQueue_stepLoop (jobs : List (List Bool)) (d : Nat)
    (IH : ∀ m fuel evs, jobs.length - m ≤ d → fuelFrom jobs m ≤ fuel →
      runQueue jobs fuel [Cont.start m] evs = evs ++ serialTraceFrom jobs m)
    (n : Nat) (hd : jobs.length - (n + 1) ≤ d) :
    ∀ (remaining : List Bool) (i fuel : Nat) (evs : List QEvent),
      remaining.length + 2 + fuelFrom jobs (n + 1) ≤ fuel →
      runQueue jobs fuel [Cont.step n i remaining] evs =
        evs ++ jobTraceGo n i remaining ++ serialTraceFrom jobs (n + 1) := by
  intro remaining
  induction remaining with
  | nil =>
    intro i fuel evs hfuel
    cases fuel with
    | zero => omega
    | succ f =>
      rw [show runQueue jobs (f + 1) [Cont.step n i []] evs =
          runQueue jobs f ([] ++ (procCont jobs (Cont.step n i [])).2)
            (evs ++ (procCont jobs (Cont.step n i [])).1) from rfl]
      rw [show procCont jobs (Cont.step n i []) =
          ([QEvent.chainSettled n], startNext jobs n) from rfl]
      simp only [List.nil_append]
      by_cases hn : n + 1 < jobs.length
      · rw [startNext_pos jobs n hn,
          IH (n + 1) f _ hd (by omega)]
        simp [jobTraceGo]
      · rw [startNext_neg jobs n hn, runQueue_empty, serialTraceFrom_neg jobs _ hn]
        simp [jobTraceGo]
  | cons ok rest ih =>
    intro i fuel evs hfuel
    cases fuel with
    | zero => omega
    | succ f =>
      cases ok with
      | true =>
        rw [show runQueue jobs (f + 1) [Cont.step n i (true :: rest)] evs =
            runQueue jobs f [Cont.step n (i + 1) rest]
              (evs ++ [QEvent.stepRun n i]) from rfl]
        rw [ih (i + 1) f _ (by simp at hfuel ⊢; omega)]
        simp [jobTraceGo]
      | false =>
        cases f with
        | zero => simp at hfuel; omega
        | succ f2 =>
          rw [show runQueue jobs (f2 + 1 + 1) [Cont.step n i (false :: rest)] evs =
              runQueue jobs (f2 + 1) [Cont.handler n]
                (evs ++ [QEvent.stepRun n i, QEvent.stepThrew n i]) from rfl]
          rw [show runQueue jobs (f2 + 1) [Cont.handler n]
                (evs ++ [QEvent.stepRun n i, QEvent.stepThrew n i]) =
              runQueue jobs f2 ([] ++ startNext jobs n)
                ((evs ++ [QEvent.stepRun n i, QEvent.stepThrew n i]) ++
                  [QEvent.handlerRun n, QEvent.chainSettled n]) from rfl]
          simp only [List.nil_append]
          by_cases hn : n + 1 < jobs.length
          · rw [startNext_pos jobs n hn,
              IH (n + 1) f2 _ hd (by simp at hfuel; omega)]
            simp [jobTraceGo]
          · rw [startNext_neg jobs n hn, runQueue_empty,
              serialTraceFrom_neg jobs _ hn]
            simp [jobTraceGo]

theorem runQueue_start (jobs : List (List Bool)) :
    ∀ d n fuel evs, jobs.length - n ≤ d → fuelFrom jobs n ≤ fuel →
      runQueue jobs fuel [Cont.start n] evs = evs ++ serialTraceFrom jobs n := by
  intro d
  induction d with
  | zero =>
    intro n fuel evs hd hfuel
    have hn : jobs.length ≤ n := by omega
    have hget : jobs.get? n = none := List.get?_eq_none.mpr hn
    rw [serialTraceFrom_neg jobs n (by omega), List.append_nil]
    cases fuel with
    | zero => rfl
    | succ f =>
      rw [show runQueue jobs (f + 1) [Cont.start n] evs =
          runQueue jobs f ([] ++ (procCont jobs (Cont.start n)).2)
            (evs ++ (procCont jobs (Cont.start n)).1) from rfl]
      rw [show procCont jobs (Cont.start n) = ([], []) from by
        rw [procCont_start, hget]]
      simp [runQueue_empty]
  | succ d ihd =>
    intro n fuel evs hd hfuel
    by_cases hn : n < jobs.length
    · rcases hget : jobs.get? n with _ | steps
      · exact absurd (List.get?_eq_none.mp hget) (by omega)
      · have hgetD : jobs.getD n [] = steps := by
          rw [List.getD_eq_getElem?_getD, ← List.get?_eq_getElem?, hget]
          rfl
        have hfn := fuelFrom_succ jobs n hn
        cases fuel with
        | zero => omega
        | succ f =>
          rw [show runQueue jobs (f + 1) [Cont.start n] evs =
              runQueue jobs f ([] ++ (procCont jobs (Cont.start n)).2)
                (evs ++ (procCont jobs (Cont.start n)).1) from rfl]
          rw [show procCont jobs (Cont.start n) = ([], [Cont.step n 0 steps]) from by
            rw [procCont_start, hget]]
          simp only [List.nil_append, List.append_nil]
          rw [runQueue_stepLoop jobs d ihd n (by omega) steps 0 f evs
            (by rw [hgetD] at hfn; omega)]
          rw [serialTraceFrom_pos jobs n hn, hgetD]
          simp [jobTrace]
    · have hget : jobs.get? n = none := List.get?_eq_none.mpr (by omega)
      rw [serialTraceFrom_neg jobs n hn, List.append_nil]
      cases fuel with
      | zero => rfl
      | succ f =>
        rw [show runQueue jobs (f + 1) [Cont.start n] evs =
            runQueue jobs f ([] ++ (procCont jobs (Cont.start n)).2)
              (evs ++ (procCont jobs (Cont.start n)).1) from rfl]
        rw [show procCont jobs (Cont.start n) = ([], []) from by
          rw [procCont_start, hget]]
        simp [runQueue_empty]

theorem execTrace_eq_serialTrace (jobs : List (List Bool)) :
    execTrace jobs = serialTrace jobs := by
  have h := runQueue_start jobs jobs.length 0 (chainFuel jobs) []
    (by omega)
    (by
      unfold fuelFrom chainFuel
      simp)
  unfold execTrace serialTrace
  simpa using h

theorem jobTraceGo_ends (n : Nat) :
    ∀ (steps : List Bool) (i : Nat), ∃ body,
      jobTraceGo n i steps = body ++ [QEvent.chainSettled n] := by
  intro steps
  induction steps with
  | nil => intro i; exact ⟨[], rfl⟩
  | cons ok rest ih =>
    intro i
    cases ok with
    | true =>
      obtain ⟨body, hb⟩ := ih (i + 1)
      exact ⟨QEvent.stepRun n i :: body, by simp [jobTraceGo, hb]⟩
    | false =>
      exact ⟨[QEvent.stepRun n i, QEvent.stepThrew n i, QEvent.handlerRun n], rfl⟩

theorem jobTraceGo_eventJob (n : Nat) :
    ∀ (steps : List Bool) (i : Nat) (e : QEvent), e ∈ jobTraceGo n i steps →
      eventJob e = n := by
  intro steps
  induction steps with
  | nil =>
    intro i e he
    have : e = QEvent.chainSettled n := List.mem_singleton.mp he
    subst this
    rfl
  | cons ok rest ih =>
    intro i e he
    cases ok with
    | true =>
      rcases List.mem_cons.mp he with rfl | he2
      · rfl
      · exact ih (i + 1) e he2
    | false =>
      rcases List.mem_cons.mp he with rfl | he2
      · rfl
      rcases List.mem_cons.mp he2 with rfl | he3
      · rfl
      rcases List.mem_cons.mp he3 with rfl | he4
      · rfl
      rcases List.mem_cons.mp he4 with rfl | he5
      · rfl
      · simp at he5

theorem jobTrace_head (n : Nat) (steps : List Bool) (h : steps ≠ []) :
    ∃ rest, jobTrace n steps = QEvent.stepRun n 0 :: rest := by
  cases steps with
  | nil => exact absurd rfl h
  | cons ok rest =>
    cases ok with
    | true => exact ⟨jobTraceGo n 1 rest, rfl⟩
    | false => exact ⟨[QEvent.stepThrew n 0, QEvent.handlerRun n, QEvent.chainSettled n], rfl⟩

theorem jobTraceGo_handlerRun (n : Nat) :
    ∀ (steps : List Bool) (i : Nat), false ∈ steps →
      QEvent.handlerRun n ∈ jobTraceGo n i steps := by
  intro steps
  induction steps with
  | nil => intro i h; simp at h
  | cons ok rest ih =>
    intro i h
    cases ok with
    | true =>
      have : false ∈ rest := by simpa using h
      simp only [jobTraceGo]
      exact List.mem_cons_of_mem _ (ih (i + 1) this)
    | false =>
      simp [jobTraceGo]

theorem serial_decomp (jobs : List (List Bool)) :
    ∀ n, n < jobs.length →
      ∃ A, serialTrace jobs =
          A ++ (jobTrace n (jobs.getD n []) ++ serialTraceFrom jobs (n + 1)) ∧
        ∀ e ∈ A, eventJob e < n := by
  intro n
  induction n with
  | zero =>
    intro h
    refine ⟨[], ?_, by simp⟩
    rw [List.nil_append, serialTrace, serialTraceFrom_pos jobs 0 h]
  | succ n ih =>
    intro h
    obtain ⟨A, hA, hAe⟩ := ih (by omega)
    refine ⟨A ++ jobTrace n (jobs.getD n []), ?_, ?_⟩
    · rw [hA, serialTraceFrom_pos jobs (n + 1) h]
      simp [List.append_assoc]
    · intro e he
      rcases List.mem_append.mp he with he | he
      · exact Nat.lt_trans (hAe e he) (by omega)
      · rw [jobTraceGo_eventJob n (jobs.getD n []) 0 e he]
        omega

/-- C3 : the upload queue is a serialized continuation chain — the event
loop's full trace equals the serial trace in which each job runs all of
its steps to settlement before the next job starts; job `n+1`'s steps
appear only after `chainSettled n`; every job's chain settles even when
the job throws (the `.catch` handler absorbs the rejection), and the next
job still begins. -/
theorem C3_queue_serialization (jobs : List (List Bool))
    (hne : ∀ j ∈ jobs, j ≠ []) :
    execTrace jobs = serialTrace jobs ∧
    (∀ n, n + 1 < jobs.length →
      ∃ A B, execTrace jobs = A ++ QEvent.chainSettled n :: B ∧
        ∀ e ∈ A, eventJob e ≤ n) ∧
    (∀ n, n < jobs.length → QEvent.chainSettled n ∈ execTrace jobs) ∧
    (∀ n, n < jobs.length → false ∈ jobs.getD n [] →
      QEvent.handlerRun n ∈ execTrace jobs) ∧
    (∀ n, n + 1 < jobs.length → QEvent.stepRun (n + 1) 0 ∈ execTrace jobs) := by
  have hexec := execTrace_eq_serialTrace jobs
  refine ⟨hexec, ?_, ?_, ?_, ?_⟩
  · intro n hn
    obtain ⟨A, hA, hAe⟩ := serial_decomp jobs n (by omega)
    obtain ⟨body, hb⟩ := jobTraceGo_ends n (jobs.getD n []) 0
    refine ⟨A ++ body, serialTraceFrom jobs (n + 1), ?_, ?_⟩
    · rw [hexec, hA]
      rw [show jobTrace n (jobs.getD n []) = body ++ [QEvent.chainSettled n] from hb]
      simp [List.append_assoc]
    · intro e he
      rcases List.mem_append.mp he with he | he
      · exact Nat.le_of_lt (hAe e he)
      · rw [jobTraceGo_eventJob n (jobs.getD n []) 0 e (by rw [hb]; exact List.mem_append_left _ he)]
  · intro n hn
    obtain ⟨A, hA, _⟩ := serial_decomp jobs n hn
    obtain ⟨body, hb⟩ := jobTraceGo_ends n (jobs.getD n []) 0
    rw [hexec, hA]
    refine List.mem_append.mpr (Or.inr (List.mem_append.mpr (Or.inl ?_)))
    rw [show jobTrace n (jobs.getD n []) = body ++ [QEvent.chainSettled n] from hb]
    simp
  · intro n hn hfalse
    obtain ⟨A, hA, _⟩ := serial_decomp jobs n hn
    rw [hexec, hA]
    exact List.mem_append.mpr (Or.inr (List.mem_append.mpr (Or.inl
      (jobTraceGo_handlerRun n (jobs.getD n []) 0 hfalse))))
  · intro n hn
    obtain ⟨A, hA, _⟩ := serial_decomp jobs (n + 1) hn
    have hjob : jobs.getD (n + 1) [] ≠ [] := by
      apply hne
      rw [List.getD_eq_getElem?_getD, List.getElem?_eq_getElem hn]
      exact List.getElem_mem hn
    obtain ⟨rest, hr⟩ := jobTrace_head (n + 1) (jobs.getD (n + 1) []) hjob
    rw [hexec, hA]
    refine List.mem_append.mpr (Or.inr (List.mem_append.mpr (Or.inl ?_)))
    rw [hr]
    simp

/-- Witness for C3 at a concrete submission list: job 0 throws at its
second step, job 1 still runs and the trace is serialized. -/
theorem C3_queue_serialization_witness :
    execTrace [[true, false], [true]] = serialTrace [[true, false], [true]] ∧
    QEvent.chainSettled 0 ∈ execTrace [[true, false], [true]] ∧
    QEvent.handlerRun 0 ∈ execTrace [[true, false], [true]] ∧
    QEvent.stepRun 1 0 ∈ execTrace [[true, false], [true]] :=
  ⟨(C3_queue_serialization [[true, false], [true]] (by decide)).1,
   (C3_queue_serialization [[true, false], [true]] (by decide)).2.2.1 0 (by decide),
   (C3_queue_serialization [[true, false], [true]] (by decide)).2.2.2.1 0 (by decide) (by decide),
   (C3_queue_serialization [[true, false], [true]] (by decide)).2.2.2.2 0 (by decide)⟩

/-! ### C4/C5 supporting lemmas : byte-level walk behaviour -/

theorem byteAt_append (pre l : List Nat) (k : Nat) :
    byteAt (pre ++ l) (pre.length + k) = byteAt l k := by
  unfold byteAt
  rw [List.getD_append_right pre l 0 (pre.length + k) (by omega)]
  congr 1
  omega

theorem byteAt_pre_zero (pre l : List Nat) :
    byteAt (pre ++ l) pre.length = byteAt l 0 := by
  have := byteAt_append pre l 0
  simpa using this

theorem drop_pre (pre l : List Nat) : (pre ++ l).drop pre.length = l :=
  List.drop_left pre l

theorem drop_pre_add (pre l : List Nat) (k : Nat) :
    (pre ++ l).drop (pre.length + k) = l.drop k := List.drop_append k

/-- The scan-data / end-of-image tail stops the walk and is pushed whole. -/
theorem tailStops_sos_eoi (m : Nat) (rest : List Nat)
    (hm : m = 0xDA ∨ m = 0xD9) : TailStops (0xFF :: m :: rest) := by
  intro pre
  have hb0 : byteAt (pre ++ (0xFF :: m :: rest)) pre.length = 0xFF := by
    rw [byteAt_pre_zero]; rfl
  have hb1 : byteAt (pre ++ (0xFF :: m :: rest)) (pre.length + 1) = m := by
    rw [byteAt_append]; rfl
  rw [jpegWalk]
  rw [dif_pos (by simp)]
  rw [hb0, hb1]
  rw [if_neg (by simp)]
  rcases hm with hm | hm <;> subst hm
  · rw [if_neg (by omega), if_pos (by omega), drop_pre]
  · rw [if_pos (by omega), drop_pre]

/-- A segment whose declared length overruns the buffer stops the walk and
is pushed whole (the remainder is appended verbatim). -/
theorem tailStops_overrun (m hi lo : Nat) (more : List Nat)
    (hm : m < 256) (hm9 : m ≠ 0xD9) (hmA : m ≠ 0xDA)
    (hmR : ¬ (0xD0 ≤ m ∧ m ≤ 0xD7))
    (hover : 4 + more.length < 2 + (hi * 256 + lo)) :
    TailStops (0xFF :: m :: hi :: lo :: more) := by
  intro pre
  have hb0 : byteAt (pre ++ (0xFF :: m :: hi :: lo :: more)) pre.length = 0xFF := by
    rw [byteAt_pre_zero]; rfl
  have hb1 : byteAt (pre ++ (0xFF :: m :: hi :: lo :: more)) (pre.length + 1) = m := by
    rw [byteAt_append]; rfl
  have hb2 : byteAt (pre ++ (0xFF :: m :: hi :: lo :: more)) (pre.length + 2) = hi := by
    rw [byteAt_append]; rfl
  have hb3 : byteAt (pre ++ (0xFF :: m :: hi :: lo :: more)) (pre.length + 3) = lo := by
    rw [byteAt_append]; rfl
  have hlen : (pre ++ (0xFF :: m :: hi :: lo :: more)).length =
      pre.length + 4 + more.length := by simp; omega
  rw [jpegWalk]
  rw [dif_pos (by omega)]
  rw [hb0, hb1, hb2, hb3]
  rw [if_neg (by simp)]
  rw [if_neg (by omega), if_neg (by omega), if_neg (by omega),
    if_neg (by omega), if_pos (by omega), drop_pre]

/-- The walk's `startsWith('Exif')` test on a well-formed stream reduces to
a test on the segment's own payload: the byte after the payload is the next
marker's `0xFF`, which can never complete the `Exif` signature. -/
theorem exif_take_iff (p next : List Nat) (hnext : byteAt next 0 = 0xFF)
    (hne : next ≠ []) :
    ((p ++ next).take 4 = [0x45, 0x78, 0x69, 0x66]) ↔
      (p.take 4 = [0x45, 0x78, 0x69, 0x66]) := by
  rcases next with _ | ⟨n0, next'⟩
  · exact absurd rfl hne
  · have hn0 : n0 = 0xFF := hnext
    subst hn0
    rcases p with _ | ⟨p0, p⟩
    · constructor <;> intro h <;> simp at h
    rcases p with _ | ⟨p1, p⟩
    · constructor <;> intro h <;> simp at h
    rcases p with _ | ⟨p2, p⟩
    · constructor <;> intro h <;> simp at h
    rcases p with _ | ⟨p3, p⟩
    · constructor <;> intro h <;> simp at h
    · constructor <;> intro h <;> simpa using h

theorem encodeJSegs_cons (s : JSeg) (rest : List JSeg) :
    encodeJSegs (s :: rest) = encodeJSeg s ++ encodeJSegs rest := by
  simp [encodeJSegs]

/-- The marker walk on a well-formed stream: every non-Exif segment is
copied in order, Exif `APP1` segments are dropped, and the tail is pushed
whole. -/
theorem jpegWalk_spec (tail : List Nat) (htail : TailStops tail)
    (hff : byteAt tail 0 = 0xFF) (hne : tail ≠ []) :
    ∀ (segs : List JSeg), (∀ s ∈ segs, wfJSeg s) →
      ∀ pre : List Nat,
        jpegWalk (pre ++ (encodeJSegs segs ++ tail)) pre.length =
          ((segs.filter (fun sg => ¬ isExifSeg sg)).map encodeJSeg) ++ [tail] := by
  intro segs
  induction segs with
  | nil =>
    intro _ pre
    simpa [encodeJSegs] using htail pre
  | cons s rest ih =>
    intro hwf pre
    have hwfs := hwf s (List.mem_cons_self s rest)
    have hwfr : ∀ t ∈ rest, wfJSeg t := fun t ht => hwf t (List.mem_cons_of_mem s ht)
    have htlen : 1 ≤ tail.length := List.length_pos.mpr hne
    have hnext_ff : byteAt (encodeJSegs rest ++ tail) 0 = 0xFF := by
      cases rest with
      | nil => simpa [encodeJSegs] using hff
      | cons t ts =>
        rw [encodeJSegs_cons]
        cases t <;> rfl
    have hnext_ne : encodeJSegs rest ++ tail ≠ [] := by
      simp [hne]
    cases s with
    | rst m =>
      obtain ⟨hm0, hm7⟩ := hwfs
      have hshape : encodeJSegs (JSeg.rst m :: rest) ++ tail =
          [0xFF, m] ++ (encodeJSegs rest ++ tail) := by
        rw [encodeJSegs_cons]
        simp [encodeJSeg]
      rw [hshape]
      have hb0 : byteAt (pre ++ ([0xFF, m] ++ (encodeJSegs rest ++ tail)))
          pre.length = 0xFF := by rw [byteAt_pre_zero]; rfl
      have hb1 : byteAt (pre ++ ([0xFF, m] ++ (encodeJSegs rest ++ tail)))
          (pre.length + 1) = m := by rw [byteAt_append]; rfl
      rw [jpegWalk, dif_pos (by simp), hb0, hb1]
      rw [if_neg (by simp), if_neg (by omega), if_neg (by omega),
        if_pos (by omega)]
      rw [drop_pre]
      rw [show ([0xFF, m] ++ (encodeJSegs rest ++ tail)).take 2 = [0xFF, m] from
        List.take_left' rfl]
      rw [show pre ++ ([0xFF, m] ++ (encodeJSegs rest ++ tail)) =
          (pre ++ [0xFF, m]) ++ (encodeJSegs rest ++ tail) from by
        simp [List.append_assoc]]
      rw [show pre.length + 2 = (pre ++ [0xFF, m]).length from by simp]
      rw [ih hwfr (pre ++ [0xFF, m])]
      simp [isExifSeg, encodeJSeg]
    | seg m p =>
      obtain ⟨hm256, hm9, hmA, hmR, hplen⟩ := hwfs
      have hu16 : u16be (p.length + 2) =
          [(p.length + 2) / 256 % 256, (p.length + 2) % 256] := rfl
      have hshape : encodeJSegs (JSeg.seg m p :: rest) ++ tail =
          0xFF :: m :: ((p.length + 2) / 256 % 256) :: ((p.length + 2) % 256) ::
            (p ++ (encodeJSegs rest ++ tail)) := by
        rw [encodeJSegs_cons]
        simp [encodeJSeg, hu16]
      rw [hshape]
      have hb0 : byteAt (pre ++ (0xFF :: m :: ((p.length + 2) / 256 % 256) ::
          ((p.length + 2) % 256) :: (p ++ (encodeJSegs rest ++ tail))))
          pre.length = 0xFF := by rw [byteAt_pre_zero]; rfl
      have hb1 : byteAt (pre ++ (0xFF :: m :: ((p.length + 2) / 256 % 256) ::
          ((p.length + 2) % 256) :: (p ++ (encodeJSegs rest ++ tail))))
          (pre.length + 1) = m := by rw [byteAt_append]; rfl
      have hb2 : byteAt (pre ++ (0xFF :: m :: ((p.length + 2) / 256 % 256) ::
          ((p.length + 2) % 256) :: (p ++ (encodeJSegs rest ++ tail))))
          (pre.length + 2) = (p.length + 2) / 256 % 256 := by
        rw [byteAt_append]; rfl
      have hb3 : byteAt (pre ++ (0xFF :: m :: ((p.length + 2) / 256 % 256) ::
          ((p.length + 2) % 256) :: (p ++ (encodeJSegs rest ++ tail))))
          (pre.length + 3) = (p.length + 2) % 256 := by
        rw [byteAt_append]; rfl
      have hseglen : (p.length + 2) / 256 % 256 * 256 + (p.length + 2) % 256 =
          p.length + 2 := by omega
      have hdlen : (pre ++ (0xFF :: m :: ((p.length + 2) / 256 % 256) ::
          ((p.length + 2) % 256) :: (p ++ (encodeJSegs rest ++ tail)))).length =
          pre.length + 4 + p.length + (encodeJSegs rest).length + tail.length := by
        simp
        omega
      have hdrop4 : (pre ++ (0xFF :: m :: ((p.length + 2) / 256 % 256) ::
          ((p.length + 2) % 256) :: (p ++ (encodeJSegs rest ++ tail)))).drop
          (pre.length + 4) = p ++ (encodeJSegs rest ++ tail) := by
        rw [drop_pre_add]
        rfl
      have hcheck : exifCheckAt (pre ++ (0xFF :: m :: ((p.length + 2) / 256 % 256) ::
          ((p.length + 2) % 256) :: (p ++ (encodeJSegs rest ++ tail)))) pre.length =
          (decide (p.take 4 = [0x45, 0x78, 0x69, 0x66])) := by
        unfold exifCheckAt
        rw [hdrop4]
        by_cases hp : p.take 4 = [0x45, 0x78, 0x69, 0x66]
        · simp only [hp, decide_eq_true_eq]
          simp [(exif_take_iff p _ hnext_ff hnext_ne).mpr hp]
        · simp only [decide_eq_false hp]
          simp only [decide_eq_false
            (fun hc => hp ((exif_take_iff p _ hnext_ff hnext_ne).mp hc))]
      rw [jpegWalk, dif_pos (by simp), hb0, hb1, hb2, hb3]
      rw [if_neg (by simp), if_neg (by omega), if_neg (by omega),
        if_neg (by omega), if_neg (by omega), if_neg (by rw [hdlen]; omega)]
      have hassoc : pre ++ (0xFF :: m :: ((p.length + 2) / 256 % 256) ::
          ((p.length + 2) % 256) :: (p ++ (encodeJSegs rest ++ tail))) =
          (pre ++ ([0xFF, m, (p.length + 2) / 256 % 256, (p.length + 2) % 256] ++ p)) ++
            (encodeJSegs rest ++ tail) := by
        simp
      have hofflen : pre.length + 2 + ((p.length + 2) / 256 % 256 * 256 +
          (p.length + 2) % 256) =
          (pre ++ ([0xFF, m, (p.length + 2) / 256 % 256, (p.length + 2) % 256] ++ p)).length := by
        rw [hseglen]
        simp
        omega
      have hencode : encodeJSeg (JSeg.seg m p) =
          [0xFF, m, (p.length + 2) / 256 % 256, (p.length + 2) % 256] ++ p := by
        simp [encodeJSeg, hu16]
      by_cases hex : m = 0xE1 ∧ p.take 4 = [0x45, 0x78, 0x69, 0x66]
      · rw [if_pos ⟨by omega, by rw [hcheck]; simp [hex.2]⟩]
        rw [hassoc, hofflen, ih hwfr _]
        have hfil : isExifSeg (JSeg.seg m p) = true := by
          simp [isExifSeg, hex.1, hex.2]
        simp [hfil]
      · rw [if_neg (by
          rintro ⟨hc1, hc2⟩
          rw [hcheck] at hc2
          exact hex ⟨by omega, by simpa using hc2⟩)]
        rw [drop_pre]
        rw [show pre.length + 2 + ((p.length + 2) / 256 % 256 * 256 +
            (p.length + 2) % 256) - pre.length = 4 + p.length from by omega]
        rw [show (0xFF :: m :: ((p.length + 2) / 256 % 256) ::
            ((p.length + 2) % 256) :: (p ++ (encodeJSegs rest ++ tail))).take
            (4 + p.length) =
            [0xFF, m, (p.length + 2) / 256 % 256, (p.length + 2) % 256] ++ p from by
          rw [show (0xFF :: m :: ((p.length + 2) / 256 % 256) ::
              ((p.length + 2) % 256) :: (p ++ (encodeJSegs rest ++ tail))) =
              ([0xFF, m, (p.length + 2) / 256 % 256, (p.length + 2) % 256] ++ p) ++
                (encodeJSegs rest ++ tail) from by simp]
          exact List.take_left' (by simp; omega)]
        rw [hassoc, hofflen, ih hwfr _]
        have hfil : isExifSeg (JSeg.seg m p) = false := by
          simp only [isExifSeg]
          by_cases hm : m = 0xE1
          · simp [hm]
            intro hc
            exact (fun h2 => hex ⟨hm, h2⟩) hc
          · simp [hm]
        rw [← hencode]
        simp [hfil]

theorem replaceJpeg_wf (dt : String) (segs : List JSeg) (tail : List Nat)
    (htail : TailStops tail) (hff : byteAt tail 0 = 0xFF) (hne : tail ≠ [])
    (hwf : ∀ s ∈ segs, wfJSeg s) :
    replaceJpegExifWithCurrentTime dt (0xFF :: 0xD8 :: (encodeJSegs segs ++ tail)) =
      some ([0xFF, 0xD8] ++ createMinimalExifSegment (strToBytes dt ++ [0]) ++
        (encodeJSegs (segs.filter (fun sg => ¬ isExifSeg sg)) ++ tail)) := by
  unfold replaceJpegExifWithCurrentTime
  rw [if_pos ⟨rfl, rfl⟩]
  have hW : jpegWalk (0xFF :: 0xD8 :: (encodeJSegs segs ++ tail)) 2 =
      ((segs.filter (fun sg => ¬ isExifSeg sg)).map encodeJSeg) ++ [tail] :=
    jpegWalk_spec tail htail hff hne segs hwf [0xFF, 0xD8]
  rw [hW, List.flatten_append]
  simp [encodeJSegs]

/-- The fresh Exif segment for a 20-byte timestamp value is the 78 fixed
header bytes followed by the three separately stored copies of the
value. -/
theorem createMinimal_eq (dtB : List Nat) (hlen : dtB.length = 20) :
    createMinimalExifSegment dtB = exifLit ++ (dtB ++ dtB ++ dtB) := by
  unfold createMinimalExifSegment
  rw [hlen]
  rfl

theorem byteAt_lit (dtB : List Nat) (k : Nat) (hk : k < 78) :
    byteAt (exifLit ++ (dtB ++ dtB ++ dtB)) k = byteAt exifLit k := by
  unfold byteAt
  exact List.getD_append exifLit _ 0 k (by simpa [exifLit] using hk)

/-- The independent reader recovers the three timestamp entries from the
fresh segment: the tags, the 20-byte counts, the three distinct value
offsets 68, 88 and 108, and the three value byte strings, each equal to
`dtB`. -/
theorem reader_spec (dtB : List Nat) (hlen : dtB.length = 20) :
    readEntryTag (createMinimalExifSegment dtB) 38 = 0x9003 ∧
    readEntryTag (createMinimalExifSegment dtB) 50 = 0x9004 ∧
    readEntryTag (createMinimalExifSegment dtB) 62 = 0x0132 ∧
    readEntryValueOffset (createMinimalExifSegment dtB) 38 = 68 ∧
    readEntryValueOffset (createMinimalExifSegment dtB) 50 = 88 ∧
    readEntryValueOffset (createMinimalExifSegment dtB) 62 = 108 ∧
    readAsciiValue (createMinimalExifSegment dtB) 38 = dtB ∧
    readAsciiValue (createMinimalExifSegment dtB) 50 = dtB ∧
    readAsciiValue (createMinimalExifSegment dtB) 62 = dtB := by
  rw [createMinimal_eq dtB hlen]
  have hb : ∀ k, k < 78 → byteAt (exifLit ++ (dtB ++ dtB ++ dtB)) k = byteAt exifLit k :=
    fun k hk => byteAt_lit dtB k hk
  have htag1 : readEntryTag (exifLit ++ (dtB ++ dtB ++ dtB)) 38 = 0x9003 := by
    unfold readEntryTag readU16le
    rw [hb 38 (by omega), hb 39 (by omega)]
    rfl
  have htag2 : readEntryTag (exifLit ++ (dtB ++ dtB ++ dtB)) 50 = 0x9004 := by
    unfold readEntryTag readU16le
    rw [hb 50 (by omega), hb 51 (by omega)]
    rfl
  have htag3 : readEntryTag (exifLit ++ (dtB ++ dtB ++ dtB)) 62 = 0x0132 := by
    unfold readEntryTag readU16le
    rw [hb 62 (by omega), hb 63 (by omega)]
    rfl
  have hoff1 : readEntryValueOffset (exifLit ++ (dtB ++ dtB ++ dtB)) 38 = 68 := by
    unfold readEntryValueOffset readU32le
    rw [hb 46 (by omega), hb 47 (by omega), hb 48 (by omega), hb 49 (by omega)]
    rfl
  have hoff2 : readEntryValueOffset (exifLit ++ (dtB ++ dtB ++ dtB)) 50 = 88 := by
    unfold readEntryValueOffset readU32le
    rw [hb 58 (by omega), hb 59 (by omega), hb 60 (by omega), hb 61 (by omega)]
    rfl
  have hoff3 : readEntryValueOffset (exifLit ++ (dtB ++ dtB ++ dtB)) 62 = 108 := by
    unfold readEntryValueOffset readU32le
    rw [hb 70 (by omega), hb 71 (by omega), hb 72 (by omega), hb 73 (by omega)]
    rfl
  have hcnt1 : readEntryCount (exifLit ++ (dtB ++ dtB ++ dtB)) 38 = 20 := by
    unfold readEntryCount readU32le
    rw [hb 42 (by omega), hb 43 (by omega), hb 44 (by omega), hb 45 (by omega)]
    rfl
  have hcnt2 : readEntryCount (exifLit ++ (dtB ++ dtB ++ dtB)) 50 = 20 := by
    unfold readEntryCount readU32le
    rw [hb 54 (by omega), hb 55 (by omega), hb 56 (by omega), hb 57 (by omega)]
    rfl
  have hcnt3 : readEntryCount (exifLit ++ (dtB ++ dtB ++ dtB)) 62 = 20 := by
    unfold readEntryCount readU32le
    rw [hb 66 (by omega), hb 67 (by omega), hb 68 (by omega), hb 69 (by omega)]
    rfl
  have hlit : (exifLit : List Nat).length = 78 := rfl
  have hval1 : readAsciiValue (exifLit ++ (dtB ++ dtB ++ dtB)) 38 = dtB := by
    unfold readAsciiValue
    rw [hoff1, hcnt1]
    rw [show (10 + 68) = (exifLit : List Nat).length from rfl, List.drop_left]
    rw [show (dtB ++ dtB ++ dtB) = dtB ++ (dtB ++ dtB) from by simp]
    rw [← hlen, List.take_left]
  have hval2 : readAsciiValue (exifLit ++ (dtB ++ dtB ++ dtB)) 50 = dtB := by
    unfold readAsciiValue
    rw [hoff2, hcnt2]
    rw [show exifLit ++ (dtB ++ dtB ++ dtB) = (exifLit ++ dtB) ++ (dtB ++ dtB) from by simp]
    rw [show (10 + 88) = (exifLit ++ dtB).length from by simp [hlen, exifLit],
      List.drop_left, ← hlen, List.take_left]
  have hval3 : readAsciiValue (exifLit ++ (dtB ++ dtB ++ dtB)) 62 = dtB := by
    unfold readAsciiValue
    rw [hoff3, hcnt3]
    rw [show exifLit ++ (dtB ++ dtB ++ dtB) = (exifLit ++ dtB ++ dtB) ++ dtB from by simp]
    rw [show (10 + 108) = (exifLit ++ dtB ++ dtB).length from by simp [hlen, exifLit],
      List.drop_left]
    exact List.take_of_length_le (by omega)
  exact ⟨htag1, htag2, htag3, hoff1, hoff2, hoff3, hval1, hval2, hval3⟩

theorem pad2_parse (n : Nat) (h : n ≤ 99) :
    ∃ c1 c2, (pad2 n).data = [c1, c2] ∧ parseNat [c1, c2] = some n := by
  by_cases h10 : n < 10
  · refine ⟨'0', Nat.digitChar n, ?_, ?_⟩
    · rw [pad2, if_pos h10, String.data_append, toString_nat_eq_repr, repr_data,
        digitsOf, if_pos h10]
      rfl
    · have hv := (digitChar_spec n h10).2
      rw [parseNat, if_pos ⟨by simp, by
        simp [List.all_cons, (digitChar_spec n h10).1]
        decide⟩]
      simp only [List.foldl]
      rw [show digitVal '0' = 0 from rfl, hv]
      norm_num
  · have hlen2 : (digitsOf n).length = 2 := by
      have hle := digitsOf_length_le n 2 (by omega) (by omega)
      have hge := digitsOf_length_ge 1 n (by simpa using (by omega : 10 ≤ n))
      omega
    have hp : pad2 n = toString n := by rw [pad2, if_neg h10]
    rcases hd : digitsOf n with _ | ⟨c1, t⟩
    · rw [hd] at hlen2; simp at hlen2
    rcases t with _ | ⟨c2, t2⟩
    · rw [hd] at hlen2; simp at hlen2
    rcases t2 with _ | ⟨c3, t3⟩
    · refine ⟨c1, c2, ?_, ?_⟩
      · rw [hp, toString_nat_eq_repr, repr_data, hd]
      · rw [← hd]
        exact parseNat_digitsOf n
    · rw [hd] at hlen2; simp at hlen2

theorem year_parse (y : Nat) (h1 : 1000 ≤ y) (h2 : y ≤ 9999) :
    ∃ c1 c2 c3 c4, (toString y).data = [c1, c2, c3, c4] ∧
      parseNat [c1, c2, c3, c4] = some y := by
  have hlen4 := digitsOf_length_eq_four y h1 h2
  rcases hd : digitsOf y with _ | ⟨c1, t⟩
  · rw [hd] at hlen4; simp at hlen4
  rcases t with _ | ⟨c2, t2⟩
  · rw [hd] at hlen4; simp at hlen4
  rcases t2 with _ | ⟨c3, t3⟩
  · rw [hd] at hlen4; simp at hlen4
  rcases t3 with _ | ⟨c4, t4⟩
  · rw [hd] at hlen4; simp at hlen4
  rcases t4 with _ | ⟨c5, t5⟩
  · refine ⟨c1, c2, c3, c4, ?_, ?_⟩
    · rw [toString_nat_eq_repr, repr_data, hd]
    · rw [← hd]
      exact parseNat_digitsOf y
  · rw [hd] at hlen4; simp at hlen4

theorem format_structure (y mo d h mi s : Nat)
    (hy1 : 1000 ≤ y) (hy2 : y ≤ 9999) (hmo : mo ≤ 99) (hd : d ≤ 99)
    (hh : h ≤ 99) (hmi : mi ≤ 99) (hs : s ≤ 99) :
    ∃ Y1 Y2 Y3 Y4 M1 M2 D1 D2 H1 H2 I1 I2 S1 S2 : Char,
      (formatExifDateTime y mo d h mi s).data =
        [Y1, Y2, Y3, Y4, ':', M1, M2, ':', D1, D2, ' ',
         H1, H2, ':', I1, I2, ':', S1, S2] ∧
      parseNat [Y1, Y2, Y3, Y4] = some y ∧ parseNat [M1, M2] = some mo ∧
      parseNat [D1, D2] = some d ∧ parseNat [H1, H2] = some h ∧
      parseNat [I1, I2] = some mi ∧ parseNat [S1, S2] = some s := by
  obtain ⟨Y1, Y2, Y3, Y4, hY, hYp⟩ := year_parse y hy1 hy2
  obtain ⟨M1, M2, hM, hMp⟩ := pad2_parse mo hmo
  obtain ⟨D1, D2, hD, hDp⟩ := pad2_parse d hd
  obtain ⟨H1, H2, hH, hHp⟩ := pad2_parse h hh
  obtain ⟨I1, I2, hI, hIp⟩ := pad2_parse mi hmi
  obtain ⟨S1, S2, hS, hSp⟩ := pad2_parse s hs
  refine ⟨Y1, Y2, Y3, Y4, M1, M2, D1, D2, H1, H2, I1, I2, S1, S2, ?_,
    hYp, hMp, hDp, hHp, hIp, hSp⟩
  unfold formatExifDateTime
  simp only [String.data_append, hY, hM, hD, hH, hI, hS]
  rfl

/-- Round trip: the independent parser recovers the six wall-clock
components from the formatted timestamp, which is exactly 19 characters of
the `YYYY:MM:DD HH:MM:SS` shape. -/
theorem parse_format (y mo d h mi s : Nat)
    (hy1 : 1000 ≤ y) (hy2 : y ≤ 9999) (hmo : mo ≤ 99) (hd : d ≤ 99)
    (hh : h ≤ 99) (hmi : mi ≤ 99) (hs : s ≤ 99) :
    parseExifDateTime (formatExifDateTime y mo d h mi s) =
      some (y, mo, d, h, mi, s) ∧
    (formatExifDateTime y mo d h mi s).data.length = 19 := by
  obtain ⟨Y1, Y2, Y3, Y4, M1, M2, D1, D2, H1, H2, I1, I2, S1, S2, hdata,
    hYp, hMp, hDp, hHp, hIp, hSp⟩ :=
    format_structure y mo d h mi s hy1 hy2 hmo hd hh hmi hs
  constructor
  · simp only [parseExifDateTime, hdata]
    rw [if_pos ⟨trivial, trivial, trivial, trivial, trivial⟩, hYp, hMp, hDp, hHp, hIp, hSp]
  · rw [hdata]
    rfl

theorem drop_two_append (a b : Nat) (A T : List Nat) :
    ((a :: b :: A) ++ T).drop (2 + A.length) = T := by
  have hL : 2 + A.length = (a :: b :: A).length := by
    simp only [List.length_cons]
    omega
  rw [hL, List.drop_left]

theorem drop_header_append (N E T : List Nat) :
    ([0xFF, 0xD8] ++ N ++ (E ++ T)).drop (2 + N.length + E.length) = T := by
  have hre : [0xFF, 0xD8] ++ N ++ (E ++ T) = ([0xFF, 0xD8] ++ N ++ E) ++ T := by
    simp
  have hL : 2 + N.length + E.length = ([0xFF, 0xD8] ++ N ++ E).length := by
    simp only [List.length_append, List.length_cons, List.length_nil]
  rw [hre, hL, List.drop_left]

/-- **C4**: on a valid JPEG input (`FFD8`, then well-formed segments, then
the scan-data/EOI tail), the rewriter returns the start-of-image marker
immediately followed by the freshly built Exif block, then the remaining
segments with any original Exif `APP1` segment omitted; the region from the
start-of-scan (or end-of-image) marker to the end of the buffer is
byte-for-byte identical between input and output (both drop-equations yield
the same tail); and the independent reader finds the three timestamp
entries (tags `0x9003`, `0x9004`, `0x0132`) at three distinct value offsets
(68, 88, 108), each holding the same ASCII bytes: the call's wall-clock
time formatted as `YYYY:MM:DD HH:MM:SS` (19 characters, recovered exactly
by the independent parser) plus a trailing null terminator. -/
theorem C4_exif_rewrite (y mo d h mi s : Nat) (hy1 : 1000 ≤ y) (hy2 : y ≤ 9999)
    (hmo : mo ≤ 99) (hdy : d ≤ 99) (hho : h ≤ 99) (hmin : mi ≤ 99) (hsec : s ≤ 99)
    (segs : List JSeg) (hwf : ∀ sg ∈ segs, wfJSeg sg)
    (m : Nat) (hm : m = 0xDA ∨ m = 0xD9) (rest : List Nat) :
    ∃ dtB newSeg out,
      dtB = strToBytes (formatExifDateTime y mo d h mi s) ++ [0] ∧
      newSeg = createMinimalExifSegment dtB ∧
      replaceJpegExifWithCurrentTime (formatExifDateTime y mo d h mi s)
          (0xFF :: 0xD8 :: (encodeJSegs segs ++ (0xFF :: m :: rest))) = some out ∧
      out = [0xFF, 0xD8] ++ newSeg ++
        (encodeJSegs (segs.filter (fun sg => ¬ isExifSeg sg)) ++ (0xFF :: m :: rest)) ∧
      (0xFF :: 0xD8 :: (encodeJSegs segs ++ (0xFF :: m :: rest))).drop
          (2 + (encodeJSegs segs).length) = 0xFF :: m :: rest ∧
      out.drop (2 + newSeg.length +
          (encodeJSegs (segs.filter (fun sg => ¬ isExifSeg sg))).length) =
        0xFF :: m :: rest ∧
      readEntryTag newSeg 38 = 0x9003 ∧ readEntryTag newSeg 50 = 0x9004 ∧
      readEntryTag newSeg 62 = 0x0132 ∧
      readEntryValueOffset newSeg 38 = 68 ∧ readEntryValueOffset newSeg 50 = 88 ∧
      readEntryValueOffset newSeg 62 = 108 ∧
      readAsciiValue newSeg 38 = dtB ∧ readAsciiValue newSeg 50 = dtB ∧
      readAsciiValue newSeg 62 = dtB ∧
      parseExifDateTime (formatExifDateTime y mo d h mi s) =
        some (y, mo, d, h, mi, s) ∧
      (formatExifDateTime y mo d h mi s).data.length = 19 := by
  have hparse := parse_format y mo d h mi s hy1 hy2 hmo hdy hho hmin hsec
  have hlenB : (strToBytes (formatExifDateTime y mo d h mi s) ++ [0]).length = 20 := by
    simp [strToBytes, hparse.2]
  have hR := reader_spec (strToBytes (formatExifDateTime y mo d h mi s) ++ [0]) hlenB
  have hmain := replaceJpeg_wf (formatExifDateTime y mo d h mi s) segs
    (0xFF :: m :: rest) (tailStops_sos_eoi m rest hm) rfl (by simp) hwf
  refine ⟨_, _, _, rfl, rfl, hmain, rfl, ?_, ?_, hR.1, hR.2.1, hR.2.2.1,
    hR.2.2.2.1, hR.2.2.2.2.1, hR.2.2.2.2.2.1, hR.2.2.2.2.2.2.1,
    hR.2.2.2.2.2.2.2.1, hR.2.2.2.2.2.2.2.2, hparse.1, hparse.2⟩
  · show ((0xFF :: 0xD8 :: encodeJSegs segs) ++ (0xFF :: m :: rest)).drop
        (2 + (encodeJSegs segs).length) = 0xFF :: m :: rest
    exact drop_two_append _ _ _ _
  · exact drop_header_append _ _ _

/-- Concrete run of `C4_exif_rewrite`: an input with an original Exif
`APP1` segment, an `APP0` segment and a scan-data tail, rewritten at
2024-05-06 07:08:09. -/
theorem C4_exif_rewrite_witness :
    ∃ dtB newSeg out,
      dtB = strToBytes (formatExifDateTime 2024 5 6 7 8 9) ++ [0] ∧
      newSeg = createMinimalExifSegment dtB ∧
      replaceJpegExifWithCurrentTime (formatExifDateTime 2024 5 6 7 8 9)
          (0xFF :: 0xD8 ::
            (encodeJSegs [JSeg.seg 0xE1 [0x45, 0x78, 0x69, 0x66, 0, 0],
                JSeg.seg 0xE0 [1, 2]] ++ (0xFF :: 0xDA :: [9, 9]))) = some out ∧
      out = [0xFF, 0xD8] ++ newSeg ++
        (encodeJSegs (([JSeg.seg 0xE1 [0x45, 0x78, 0x69, 0x66, 0, 0],
            JSeg.seg 0xE0 [1, 2]]).filter (fun sg => ¬ isExifSeg sg)) ++
          (0xFF :: 0xDA :: [9, 9])) ∧
      (0xFF :: 0xD8 ::
          (encodeJSegs [JSeg.seg 0xE1 [0x45, 0x78, 0x69, 0x66, 0, 0],
              JSeg.seg 0xE0 [1, 2]] ++ (0xFF :: 0xDA :: [9, 9]))).drop
          (2 + (encodeJSegs [JSeg.seg 0xE1 [0x45, 0x78, 0x69, 0x66, 0, 0],
            JSeg.seg 0xE0 [1, 2]]).length) = 0xFF :: 0xDA :: [9, 9] ∧
      out.drop (2 + newSeg.length +
          (encodeJSegs (([JSeg.seg 0xE1 [0x45, 0x78, 0x69, 0x66, 0, 0],
            JSeg.seg 0xE0 [1, 2]]).filter (fun sg => ¬ isExifSeg sg))).length) =
        0xFF :: 0xDA :: [9, 9] ∧
      readEntryTag newSeg 38 = 0x9003 ∧ readEntryTag newSeg 50 = 0x9004 ∧
      readEntryTag newSeg 62 = 0x0132 ∧
      readEntryValueOffset newSeg 38 = 68 ∧ readEntryValueOffset newSeg 50 = 88 ∧
      readEntryValueOffset newSeg 62 = 108 ∧
      readAsciiValue newSeg 38 = dtB ∧ readAsciiValue newSeg 50 = dtB ∧
      readAsciiValue newSeg 62 = dtB ∧
      parseExifDateTime (formatExifDateTime 2024 5 6 7 8 9) =
        some (2024, 5, 6, 7, 8, 9) ∧
      (formatExifDateTime 2024 5 6 7 8 9).data.length = 19 :=
  C4_exif_rewrite 2024 5 6 7 8 9 (by decide) (by decide) (by decide) (by decide)
    (by decide) (by decide) (by decide)
    [JSeg.seg 0xE1 [0x45, 0x78, 0x69, 0x66, 0, 0], JSeg.seg 0xE0 [1, 2]]
    (by
      intro sg hsg
      rcases List.mem_cons.mp hsg with rfl | hsg2
      · exact ⟨by decide, by decide, by decide, by decide, by decide⟩
      rcases List.mem_cons.mp hsg2 with rfl | hsg3
      · exact ⟨by decide, by decide, by decide, by decide, by decide⟩
      · cases hsg3)
    0xDA (Or.inl rfl) [9, 9]

/-- **C5**: a segment whose declared big-endian length makes its computed
end exceed the buffer stops the marker walk, and the remainder of the
buffer is appended verbatim with the rewrite still succeeding (no raise);
an input that does not begin with the `FFD8` start-of-image signature makes
the rewriter raise (`none`), and the caller `stripExifMetadata` catches
that and returns the original bytes unchanged, for every MIME type. -/
theorem C5_malformed_inputs (dt : String) :
    (∀ (segs : List JSeg), (∀ sg ∈ segs, wfJSeg sg) →
      ∀ (m hi lo : Nat) (more : List Nat),
        m < 256 → m ≠ 0xD9 → m ≠ 0xDA → ¬ (0xD0 ≤ m ∧ m ≤ 0xD7) →
        4 + more.length < 2 + (hi * 256 + lo) →
        replaceJpegExifWithCurrentTime dt
            (0xFF :: 0xD8 ::
              (encodeJSegs segs ++ (0xFF :: m :: hi :: lo :: more))) =
          some ([0xFF, 0xD8] ++
            createMinimalExifSegment (strToBytes dt ++ [0]) ++
            (encodeJSegs (segs.filter (fun sg => ¬ isExifSeg sg)) ++
              (0xFF :: m :: hi :: lo :: more)))) ∧
    (∀ data : List Nat, ¬ (byteAt data 0 = 0xFF ∧ byteAt data 1 = 0xD8) →
      replaceJpegExifWithCurrentTime dt data = none ∧
      ∀ mime, stripExifMetadata mime dt data = data) := by
  constructor
  · intro segs hwf m hi lo more hm hm9 hmA hmR hover
    exact replaceJpeg_wf dt segs (0xFF :: m :: hi :: lo :: more)
      (tailStops_overrun m hi lo more hm hm9 hmA hmR hover) rfl (by simp) hwf
  · intro data hno
    have hnone : replaceJpegExifWithCurrentTime dt data = none := by
      unfold replaceJpegExifWithCurrentTime
      rw [if_neg hno]
    refine ⟨hnone, ?_⟩
    intro mime
    unfold stripExifMetadata
    rw [hnone]
    by_cases hmime : mime = "image/jpeg"
    · rw [if_pos hmime]
    · rw [if_neg hmime]

/-- Concrete run of `C5_malformed_inputs`: a declared segment length of
`0x0909` overrunning a 5-byte remainder is appended verbatim; the input
`[1, 2, 3]` without the `FFD8` signature makes the rewriter raise and
`stripExifMetadata` return it unchanged. -/
theorem C5_malformed_inputs_witness :
    (replaceJpegExifWithCurrentTime "2024:05:06 07:08:09"
        (0xFF :: 0xD8 ::
          (encodeJSegs [] ++ (0xFF :: 0xE0 :: 9 :: 9 :: [1]))) =
      some ([0xFF, 0xD8] ++
        createMinimalExifSegment (strToBytes "2024:05:06 07:08:09" ++ [0]) ++
        (encodeJSegs (([] : List JSeg).filter (fun sg => ¬ isExifSeg sg)) ++
          (0xFF :: 0xE0 :: 9 :: 9 :: [1])))) ∧
    replaceJpegExifWithCurrentTime "2024:05:06 07:08:09" [1, 2, 3] = none ∧
    stripExifMetadata "image/jpeg" "2024:05:06 07:08:09" [1, 2, 3] = [1, 2, 3] :=
  ⟨(C5_malformed_inputs "2024:05:06 07:08:09").1 []
      (by intro sg hsg; cases hsg) 0xE0 9 9 [1]
      (by decide) (by decide) (by decide) (by decide) (by decide),
    ((C5_malformed_inputs "2024:05:06 07:08:09").2 [1, 2, 3] (by decide)).1,
    ((C5_malformed_inputs "2024:05:06 07:08:09").2 [1, 2, 3] (by decide)).2
      "image/jpeg"⟩

end MemePhoto
